import Mathlib

/-
Verification of the MLServer core registry and data-plane dispatcher.

Shallow embedding of:
  * src/mlserver/registry.py  (SingleModelRegistry, MultiModelRegistry, _is_newer)
  * src/mlserver/handlers/dataplane.py  (DataPlane.infer, DataPlane.model_ready)

Modelling conventions
  * Python objects (MLModel instances) are heap addresses (Nat); the heap maps
    an address to the object's observable fields.  Python `==` on models is
    object identity, modelled as address equality.
  * Python dicts are insertion-ordered association lists: assignment to an
    existing key updates the value in place (keeping its position), assignment
    to a new key appends, `del` removes the entry.
  * `async` here is cooperative single-threaded scheduling; each registry
    operation is modelled as a sequential state transformer.  `asyncio.gather`
    without `return_exceptions` is modelled as running every branch to
    completion and then re-raising the first exception (branches of a failed
    gather are not cancelled in asyncio).  `asyncio.gather(...,
    return_exceptions=True)` collects the outcomes; the source discards them.
  * Fallible code returns `Except`.  User exceptions (from hooks, Model.load,
    Model.unload, predict, middleware) are `.hookError` / `.userError`;
    built-in Python exception classes that the data-plane distinguishes are
    separate constructors.
  * `with model_context(...)` publishes settings to logging/telemetry only and
    has no effect on registry state; it is not modelled.
-/

namespace MLServer

set_option maxRecDepth 8000

/-- Modelled from the spec: observable fields of an MLModel object (the Model
abstraction of section 3; src/mlserver/model.py is not under src/).  Identity
is `(name, version?)`; `ready` is the mutable readiness flag. -/
structure MData where
  name : String
  version : Option String
  ready : Bool
deriving Repr, DecidableEq

/-- Heap of model objects: address to current field values. -/
abbrev Heap := List (Nat × MData)

def hGet? (h : Heap) (i : Nat) : Option MData :=
  match h with
  | [] => none
  | (j, d) :: rest => if j = i then some d else hGet? rest i

def hGetD (h : Heap) (i : Nat) : MData :=
  (hGet? h i).getD ⟨"", none, false⟩

/-- Field assignment on a heap object (appends when the address is fresh). -/
def hSet (h : Heap) (i : Nat) (d : MData) : Heap :=
  match h with
  | [] => [(i, d)]
  | (j, e) :: rest => if j = i then (j, d) :: rest else (j, e) :: hSet rest i d

/-- Python dict lookup (first matching key). -/
def dGet? {α : Type} (d : List (String × α)) (k : String) : Option α :=
  match d with
  | [] => none
  | (j, v) :: rest => if j = k then some v else dGet? rest k

/-- Python dict assignment: update in place, or append a new entry. -/
def dSet {α : Type} (d : List (String × α)) (k : String) (v : α) : List (String × α) :=
  match d with
  | [] => [(k, v)]
  | (j, w) :: rest => if j = k then (j, v) :: rest else (j, w) :: dSet rest k v

/-- Python `del d[k]` (the KeyError case is handled at call sites). -/
def dDel {α : Type} (d : List (String × α)) (k : String) : List (String × α) :=
  match d with
  | [] => []
  | (j, w) :: rest => if j = k then rest else (j, w) :: dDel rest k

def dValues {α : Type} (d : List (String × α)) : List α :=
  d.map Prod.snd

def dKeys {α : Type} (d : List (String × α)) : List String :=
  d.map Prod.fst

/-- Python truthiness of an optional string (None and the empty string are
falsy). -/
def truthyS (v : Option String) : Bool :=
  match v with
  | none => false
  | some s => s ≠ ""

/-- Digit run of a Python int literal: digits with single underscores allowed
between digits (no leading, trailing or doubled underscore). -/
def pyDigits : Nat → List Char → Option Nat
  | acc, [] => some acc
  | acc, c :: cs =>
    if c.isDigit then pyDigits (acc * 10 + (c.toNat - 48)) cs
    else if c = '_' then
      match cs with
      | [] => none
      | c2 :: cs2 =>
        if c2.isDigit then pyDigits (acc * 10 + (c2.toNat - 48)) cs2 else none
    else none

/-- Python `int(s)` on a version string (ASCII): optional surrounding
whitespace, an optional sign, then a digit run; `none` models ValueError. -/
def pyInt? (s : String) : Option Int :=
  let cs := s.data.dropWhile Char.isWhitespace
  let cs := (cs.reverse.dropWhile Char.isWhitespace).reverse
  match cs with
  | [] => none
  | '+' :: rest =>
    match rest with
    | c :: _ => if c.isDigit then (pyDigits 0 rest).map Int.ofNat else none
    | [] => none
  | '-' :: rest =>
    match rest with
    | c :: _ => if c.isDigit then (pyDigits 0 rest).map (fun n => -(Int.ofNat n)) else none
    | [] => none
  | c :: _ => if c.isDigit then (pyDigits 0 cs).map Int.ofNat else none

/-- Transcribes registry._is_newer (registry.py lines 26-49): positive means
`a` is newer than `b`.  A version-less model sorts newer; two versions that
both parse as Python ints compare as ints; otherwise they compare
lexicographically as strings. -/
def is_newer (a b : MData) : Int :=
  match a.version with
  | none => 1
  | some av =>
    match b.version with
    | none => -1
    | some bv =>
      match pyInt? av, pyInt? bv with
      | some ai, some bi => ai - bi
      | _, _ => if bv < av then 1 else if av < bv then -1 else 0

/-- Modelled from the spec: the recognized ModelSettings fields the registry
reads (section 6; src/mlserver/settings.py is not under src/). -/
structure ModelParameters where
  version : Option String
deriving Repr, DecidableEq

structure ModelSettings where
  name : String
  parameters : Option ModelParameters
deriving Repr, DecidableEq

/-- Transcribes registry._get_version (lines 19-23). -/
def get_version (ms : ModelSettings) : Option String :=
  match ms.parameters with
  | some p => p.version
  | none => none

/-- Mutable fields of a SingleModelRegistry: `_name`, `_versions` (version
string to model address) and `_default` (the `_default` attribute backing the
`default` property). -/
structure SReg where
  name : String
  versions : List (String × Nat)
  dflt : Option Nat
deriving Repr, DecidableEq

/-- Transcribes SingleModelRegistry._find_default (lines 86-93): when
`_default` is unset and versions exist, pick `max(versions.values(),
key=cmp_to_key(_is_newer))`; Python's max keeps the earliest element on
ties. -/
def find_default (h : Heap) (r : SReg) : Option Nat :=
  match r.dflt with
  | none =>
    match dValues r.versions with
    | [] => none
    | v :: vs => some (vs.foldl (fun cur n => if is_newer (hGetD h n) (hGetD h cur) > 0 then n else cur) v)
  | some d => some d

/-- Transcribes the `default` property (lines 79-84): lazily recomputes and
assigns `_default`, returning the value and the mutated registry. -/
def default_prop (h : Heap) (r : SReg) : Option Nat × SReg :=
  match r.dflt with
  | some d => (some d, r)
  | none =>
    let d := find_default h r
    (d, { r with dflt := d })

/-- Transcribes SingleModelRegistry._refresh_default (lines 98-137); returns
the Python return value together with the mutated registry. -/
def refresh_default (h : Heap) (r : SReg) (newModel : Option Nat) : Option Nat × SReg :=
  match newModel with
  | some m =>
    match r.dflt with
    | none => (some m, { r with dflt := some m })
    | some d =>
      if (hGetD h m).version = none then (some m, { r with dflt := some m })
      else if (hGetD h d).version = none then (some d, r)
      else if is_newer (hGetD h m) (hGetD h d) ≥ 0 then (some m, { r with dflt := some m })
      else (some d, r)
  | none =>
    match r.dflt with
    | some d =>
      if (hGetD h d).version = none then (some d, r)
      else
        let nd := find_default h r
        (nd, { r with dflt := nd })
    | none =>
      let nd := find_default h r
      (nd, { r with dflt := nd })

/-- Transcribes SingleModelRegistry._register (lines 261-265): put the model
under its version key when the version is truthy, then refresh the default. -/
def register (h : Heap) (r : SReg) (m : Nat) : SReg :=
  let r1 :=
    if truthyS (hGetD h m).version then
      { r with versions := dSet r.versions (((hGetD h m).version).getD "") m }
    else r
  (refresh_default h r1 (some m)).2

/-- Transcribes SingleModelRegistry._find_model (lines 233-240): a truthy
version is looked up in `_versions`; otherwise the `default` property is read
(which may assign `_default`). -/
def find_model (h : Heap) (r : SReg) (version : Option String) : Option Nat × SReg :=
  if truthyS version then
    (dGet? r.versions (version.getD ""), r)
  else default_prop h r

/-- Error kinds raised by the core (errors.py is not under src/; modelled from
the spec's taxonomy, section 7, plus the built-in Python exceptions that
DataPlane.infer distinguishes). -/
inductive PErr where
  | modelNotFound (name : String) (version : Option String)
  | modelNotReady (name : String) (version : Option String)
  | keyError
  | indexError
  | attributeError
  | typeError
  | hookError
  | userError
deriving Repr, DecidableEq

/-- Transcribes SingleModelRegistry.get_model (lines 242-248). -/
def sget_model (h : Heap) (r : SReg) (version : Option String) : Except PErr Nat × SReg :=
  match find_model h r version with
  | (none, r1) => (.error (.modelNotFound r.name version), r1)
  | (some m, r1) => (.ok m, r1)

/-- Transcribes SingleModelRegistry.get_models (lines 250-259): all versioned
models, plus the default when it has a falsy version. -/
def sget_models (h : Heap) (r : SReg) : List Nat × SReg :=
  let ms := dValues r.versions
  let (d, r1) := default_prop h r
  match d with
  | some dm => if ¬ truthyS (hGetD h dm).version then (ms ++ [dm], r1) else (ms, r1)
  | none => (ms, r1)

/-- Transcribes SingleModelRegistry.empty (lines 267-271). -/
def empty_check (h : Heap) (r : SReg) : Bool × SReg :=
  if r.versions ≠ [] then (false, r)
  else
    let (d, r1) := default_prop h r
    (d = none, r1)

/-- Modelled from the spec: a load hook (section 4.1 step 3) is user async
code that receives a model and either raises or returns a (possibly
replacing) model; it may allocate or mutate heap objects. -/
abbrev LoadHook := Heap → Nat → Except Unit (Nat × Heap)

/-- Modelled from the spec: a reload callback (section 4.1 reload step 2) has
a declared identifier `cbName`; the registry calls it with the new model alone
when the identifier is `load_batching`, and with `(oldModel, newModel)`
otherwise. -/
structure ReloadCB where
  cbName : String
  runInit : Heap → Nat → Except Unit (Nat × Heap)
  runBoth : Heap → Nat → Nat → Except Unit (Nat × Heap)

/-- Dispatch of one reload callback (registry.py lines 180-184). -/
def applyReloadCB (cb : ReloadCB) (h : Heap) (old nw : Nat) : Except Unit (Nat × Heap) :=
  if cb.cbName = "load_batching" then cb.runInit h nw else cb.runBoth h old nw

/-- Modelled from the spec: behaviour of the user-supplied collaborators that
the registry awaits (the Model's own `load`/`unload` coroutines per object
address, the initialiser, and the three hook lists). -/
structure Beh where
  initRaises : Bool
  loadFn : Nat → Except Unit Bool
  unloadFn : Nat → Except Unit Bool
  onLoad : List LoadHook
  onReload : List ReloadCB
  onUnload : List (Nat → Except Unit Unit)

/-- Sequential run of the on-load hook chain (registry.py lines 161-164);
returns whether every hook succeeded, the current model (the last successful
hook result, as held by the local variable when an exception is raised) and
the current heap. -/
def runLoadHooks : List LoadHook → Heap → Nat → Bool × Nat × Heap
  | [], h, m => (true, m, h)
  | hk :: rest, h, m =>
    match hk h m with
    | .error _ => (false, m, h)
    | .ok (m2, h2) => runLoadHooks rest h2 m2

/-- Sequential run of the reload callback chain (registry.py lines 180-184). -/
def runReloadHooks : List ReloadCB → Heap → Nat → Nat → Bool × Nat × Heap
  | [], h, _, nw => (true, nw, h)
  | cb :: rest, h, old, nw =>
    match applyReloadCB cb h old nw with
    | .error _ => (false, nw, h)
    | .ok (nw2, h2) => runReloadHooks rest h2 old nw2

/-- Transcribes SingleModelRegistry._unload_model (lines 210-231).  The
on-unload hooks run under `asyncio.gather(..., return_exceptions=True)`: their
outcomes are collected and discarded, so hook exceptions never propagate.
`del self._versions[model.version]` raises KeyError when the key is absent.
The `default` property is read after the deletion; `model.unload()` may raise,
in which case `ready` is left unassigned. -/
def unload_model (beh : Beh) (h : Heap) (r : SReg) (m : Nat) : Except PErr Unit × Heap × SReg :=
  let _hookOutcomes := beh.onUnload.map (fun cb => cb m)
  let md := hGetD h m
  if truthyS md.version then
    match dGet? r.versions (md.version.getD "") with
    | none => (.error .keyError, h, r)
    | some _ =>
      let r1 := { r with versions := dDel r.versions (md.version.getD "") }
      let (d, r2) := default_prop h r1
      let r3 := if d = some m then { r2 with dflt := none } else r2
      match beh.unloadFn m with
      | .error _ => (.error .hookError, h, r3)
      | .ok b => (.ok (), hSet h m { md with ready := !b }, r3)
  else
    let (d, r2) := default_prop h r
    let r3 := if d = some m then { r2 with dflt := none } else r2
    match beh.unloadFn m with
    | .error _ => (.error .hookError, h, r3)
    | .ok b => (.ok (), hSet h m { md with ready := !b }, r3)

/-- Fan-out of `_unload_model` over a snapshot (registry.py line 199):
`asyncio.gather` without `return_exceptions` — every branch runs (a failed
gather does not cancel the others), and the first exception is re-raised. -/
def gatherUnload (beh : Beh) : Heap → SReg → List Nat → Except PErr Unit × Heap × SReg
  | h, r, [] => (.ok (), h, r)
  | h, r, m :: ms =>
    let (res1, h2, r2) := unload_model beh h r m
    let (resRest, h3, r3) := gatherUnload beh h2 r2 ms
    (match res1 with | .error e => .error e | .ok _ => resRest, h3, r3)

/-- Transcribes SingleModelRegistry.unload (lines 197-204): snapshot via
`get_models`, concurrently unload every model, then clear `_versions` and
`_default`.  The clearing statements run only when the gather returns
normally. -/
def sunload (beh : Beh) (h : Heap) (r : SReg) : Except PErr Unit × Heap × SReg :=
  let (ms, r1) := sget_models h r
  let (res, h2, r2) := gatherUnload beh h r1 ms
  match res with
  | .ok _ => (.ok (), h2, { r2 with versions := [], dflt := none })
  | .error e => (.error e, h2, r2)

/-- Transcribes SingleModelRegistry.unload_version (lines 206-208). -/
def sunload_version (beh : Beh) (h : Heap) (r : SReg) (version : Option String) :
    Except PErr Unit × Heap × SReg :=
  match sget_model h r version with
  | (.error e, r1) => (.error e, h, r1)
  | (.ok m, r1) => unload_model beh h r1 m

/-- Transcribes SingleModelRegistry._load_model (lines 155-177): register the
model before loading (so it appears as a not-ready, loading model), run the
on-load hooks sequentially (each may replace the model), register again to
save a version modified by hooks, then set `ready` from `model.load()`.  On
any exception the current model is unload-cleaned and the error propagates
(an exception raised by the cleanup itself replaces the original). -/
def load_model (beh : Beh) (h : Heap) (r : SReg) (m : Nat) : Except PErr Unit × Heap × SReg :=
  let r1 := register h r m
  match runLoadHooks beh.onLoad h m with
  | (false, m1, h1) =>
    let (res, h2, r2) := unload_model beh h1 r1 m1
    (match res with | .ok _ => .error .hookError | .error e => .error e, h2, r2)
  | (true, m1, h1) =>
    let r2 := register h1 r1 m1
    match beh.loadFn m1 with
    | .error _ =>
      let (res, h2, r3) := unload_model beh h1 r2 m1
      (match res with | .ok _ => .error .hookError | .error e => .error e, h2, r3)
    | .ok b => (.ok (), hSet h1 m1 { hGetD h1 m1 with ready := b }, r2)

/-- Transcribes SingleModelRegistry._reload_model (lines 179-195): run the
reload callbacks, load the new model and set its `ready` before unloading the
old one, register the new model (evicting the old from `_versions`), clear the
default pointer when the old model was the default, then unload the old model
and write the negation of the result into its `ready`. -/
def reload_model (beh : Beh) (h : Heap) (r : SReg) (old nw : Nat) :
    Except PErr Unit × Heap × SReg :=
  match runReloadHooks beh.onReload h old nw with
  | (false, _, h1) => (.error .hookError, h1, r)
  | (true, n1, h1) =>
    match beh.loadFn n1 with
    | .error _ => (.error .hookError, h1, r)
    | .ok b =>
      let h2 := hSet h1 n1 { hGetD h1 n1 with ready := b }
      let r1 := register h2 r n1
      let (d, r2) := default_prop h2 r1
      let r3 := if d = some old then { r2 with dflt := none } else r2
      match beh.unloadFn old with
      | .error _ => (.error .hookError, h2, r3)
      | .ok ub => (.ok (), hSet h2 old { hGetD h2 old with ready := !ub }, r3)

/-- Transcribes SingleModelRegistry.load (lines 139-153): look up a previously
loaded model under the settings' version, build the new model via the
initialiser (a fresh object at address `newId` with `ready = False` and
identity taken from the settings, as in MLModel's constructor), then reload or
first-load.  Returns the model built by the initialiser — not the hook
output. -/
def sload (beh : Beh) (h : Heap) (r : SReg) (ms : ModelSettings) (newId : Nat) :
    Except PErr Nat × Heap × SReg :=
  let pv := get_version ms
  let (prev, r1) := find_model h r pv
  if beh.initRaises then (.error .hookError, h, r1)
  else
    let h1 := hSet h newId ⟨ms.name, pv, false⟩
    match prev with
    | some old =>
      let (res, h2, r2) := reload_model beh h1 r1 old newId
      (res.map (fun _ => newId), h2, r2)
    | none =>
      let (res, h2, r2) := load_model beh h1 r1 newId
      (res.map (fun _ => newId), h2, r2)

/-- Instrumented `_reload_model`: the same computation as `reload_model`,
additionally returning the registry-visible states `(heap, registry)` at every
await/assignment boundary of the coroutine — the initial state, the state
after each reload callback, after `new_model.ready = await new_model.load()`,
after `self._register(new_model)`, after the default-clearing check, and
after the old model's unload. -/
def runReloadHooksT : List ReloadCB → Heap → Nat → Nat → (Bool × Nat × Heap) × List Heap
  | [], h, _, nw => ((true, nw, h), [])
  | cb :: rest, h, old, nw =>
    match applyReloadCB cb h old nw with
    | .error _ => ((false, nw, h), [])
    | .ok (nw2, h2) =>
      let (res, tr) := runReloadHooksT rest h2 old nw2
      (res, h2 :: tr)

def reload_model_t (beh : Beh) (h : Heap) (r : SReg) (old nw : Nat) :
    (Except PErr Unit × Heap × SReg) × List (Heap × SReg) :=
  let ((ok1, n1, h1), hookTr) := runReloadHooksT beh.onReload h old nw
  let tr0 := (h, r) :: hookTr.map (fun hh => (hh, r))
  if ok1 then
    match beh.loadFn n1 with
    | .error _ => ((.error .hookError, h1, r), tr0)
    | .ok b =>
      let h2 := hSet h1 n1 { hGetD h1 n1 with ready := b }
      let r1 := register h2 r n1
      let (d, r2) := default_prop h2 r1
      let r3 := if d = some old then { r2 with dflt := none } else r2
      match beh.unloadFn old with
      | .error _ => ((.error .hookError, h2, r3), tr0 ++ [(h2, r), (h2, r1), (h2, r3)])
      | .ok ub =>
        let h3 := hSet h2 old { hGetD h2 old with ready := !ub }
        ((.ok (), h3, r3), tr0 ++ [(h2, r), (h2, r1), (h2, r3), (h3, r3)])
  else ((.error .hookError, h1, r), tr0)

/-- Mutable fields of a MultiModelRegistry (`_models`: name to child
registry) together with the shared object heap. -/
structure MRState where
  heap : Heap
  models : List (String × SReg)
deriving Repr, DecidableEq

/-- Transcribes MultiModelRegistry._get_model_registry (lines 330-336) fused
with its callers: lookup only, the surrounding operation handles the
ModelNotFound case. -/
def mchild? (s : MRState) (name : String) : Option SReg :=
  dGet? s.models name

/-- Transcribes MultiModelRegistry.load (lines 292-302): create the child on
first sight of the name, then delegate.  The child object is mutated in place
by the delegate call, so it is written back whether or not the load raised. -/
def mload (beh : Beh) (s : MRState) (ms : ModelSettings) (newId : Nat) :
    Except PErr Nat × MRState :=
  let models1 :=
    match dGet? s.models ms.name with
    | some _ => s.models
    | none => dSet s.models ms.name ⟨ms.name, [], none⟩
  match dGet? models1 ms.name with
  | none => (.error (.modelNotFound ms.name none), s)
  | some c =>
    let (res, h2, c2) := sload beh s.heap c ms newId
    (res, ⟨h2, dSet models1 ms.name c2⟩)

/-- Transcribes MultiModelRegistry.unload (lines 304-307): delegate, then
delete the child.  When the child's unload raises, the deletion is skipped and
the (mutated) child is left in the map. -/
def munload (beh : Beh) (s : MRState) (name : String) : Except PErr Unit × MRState :=
  match dGet? s.models name with
  | none => (.error (.modelNotFound name none), s)
  | some c =>
    match sunload beh s.heap c with
    | (.ok _, h2, _) => (.ok (), ⟨h2, dDel s.models name⟩)
    | (.error e, h2, c2) => (.error e, ⟨h2, dSet s.models name c2⟩)

/-- Transcribes MultiModelRegistry.unload_version (lines 309-313): delegate,
then delete the child iff it reports empty (the `empty()` call itself may
assign the child's `_default`, which persists). -/
def munload_version (beh : Beh) (s : MRState) (name : String) (version : Option String) :
    Except PErr Unit × MRState :=
  match dGet? s.models name with
  | none => (.error (.modelNotFound name version), s)
  | some c =>
    match sunload_version beh s.heap c version with
    | (.error e, h2, c2) => (.error e, ⟨h2, dSet s.models name c2⟩)
    | (.ok _, h2, c2) =>
      let (b, c3) := empty_check h2 c2
      let models1 := dSet s.models name c3
      if b then (.ok (), ⟨h2, dDel models1 name⟩)
      else (.ok (), ⟨h2, models1⟩)

/-- Transcribes MultiModelRegistry.get_model (lines 315-317). -/
def mget_model (s : MRState) (name : String) (version : Option String) :
    Except PErr Nat × MRState :=
  match dGet? s.models name with
  | none => (.error (.modelNotFound name version), s)
  | some c =>
    match sget_model s.heap c version with
    | (res, c2) => (res, ⟨s.heap, dSet s.models name c2⟩)

/-- Transcribes DataPlane.model_ready (dataplane.py lines 68-70): resolve the
model through the registry and return its `ready` flag. -/
def model_ready (s : MRState) (name : String) (version : Option String) :
    Except PErr Bool × MRState :=
  match mget_model s name version with
  | (.error e, s2) => (.error e, s2)
  | (.ok m, s2) => (.ok ((hGetD s2.heap m).ready), s2)

/-- Modelled from the spec: pure resolution of `(name, version?)` following
the spec's words (sections 4.1/4.2): an absent name is ModelNotFound; a truthy
version is looked up among the child's versions; otherwise the default is
consulted. -/
def resolveSpec (s : MRState) (name : String) (version : Option String) : Except PErr Nat :=
  match dGet? s.models name with
  | none => .error (.modelNotFound name version)
  | some c =>
    match (if truthyS version then dGet? c.versions (version.getD "") else (default_prop s.heap c).1) with
    | none => .error (.modelNotFound c.name version)
    | some m => .ok m

/-- Modelled from the spec: the payload structural contract (section 6;
src/mlserver/types.py is not under src/) — an optional request id, a list of
inputs, each with optional parameters carrying an optional
`extended_parameters` mapping whose `sla` entry is numeric. -/
structure InputParameters where
  extended_parameters : Option (List (String × Int))
deriving Repr, DecidableEq

structure RequestInput where
  parameters : Option InputParameters
deriving Repr, DecidableEq

structure InferenceRequest where
  id : Option String
  inputs : List RequestInput
deriving Repr, DecidableEq

structure InferenceResponse where
  id : Option String
deriving Repr, DecidableEq

/-- Modelled from the spec: the collaborators DataPlane.infer awaits —
registry resolution (abstracted to its outcome), the request/response
middleware chains (which may mutate their argument or raise, section 4.4),
`predict`, and the UUID generator (utils.generate_uuid is not under src/). -/
structure InferBeh where
  resolve : Except PErr Bool
  requestMw : InferenceRequest → Except PErr InferenceRequest
  predict : InferenceRequest → Except PErr InferenceResponse
  responseMw : InferenceResponse → Except PErr InferenceResponse
  freshId : String

/-- Evaluation of `payload.inputs[0].parameters.extended_parameters["sla"]`
under Python semantics: an empty inputs list raises IndexError, `None`
parameters raises AttributeError (attribute access on None), `None`
extended_parameters raises TypeError (subscripting None), and a mapping
without the key raises KeyError. -/
def slaLookup (p : InferenceRequest) : Except PErr Int :=
  match p.inputs with
  | [] => .error .indexError
  | i :: _ =>
    match i.parameters with
    | none => .error .attributeError
    | some pr =>
      match pr.extended_parameters with
      | none => .error .typeError
      | some ep =>
        match dGet? ep "sla" with
        | none => .error .keyError
        | some v => .ok v

/-- The `try`/`except (AttributeError, TypeError)` around the SLA lookup
(dataplane.py lines 101-104): only those two exception classes default the
SLA to 0; every other exception propagates. -/
def slaStep (p : InferenceRequest) : Except PErr Int :=
  match slaLookup p with
  | .ok v => .ok v
  | .error .attributeError => .ok 0
  | .error .typeError => .ok 0
  | .error e => .error e

instance exceptDecEq {ε α : Type} [DecidableEq ε] [DecidableEq α] :
    DecidableEq (Except ε α) := fun x y =>
  match x, y with
  | .ok a, .ok b => if h : a = b then .isTrue (by rw [h]) else .isFalse (by simp [h])
  | .ok _, .error _ => .isFalse (by simp)
  | .error _, .ok _ => .isFalse (by simp)
  | .error e, .error f => if h : e = f then .isTrue (by rw [h]) else .isFalse (by simp [h])

/-- Per-call observable outcome of DataPlane.infer: increments applied to the
`model_infer_request_total` / `_success` / `_failure` counters labelled
`(name, version)`, the value written to the `model_infer_request_sla` gauge
(if any), and the returned response or propagated exception. -/
structure InferOutcome where
  totalInc : Nat
  successInc : Nat
  failureInc : Nat
  slaSet : Option Int
  result : Except PErr InferenceResponse
deriving Repr, DecidableEq

/-- Body of the `with infer_duration, infer_errors:` block (dataplane.py lines
107-128): assign a fresh UUID when the payload has no id, resolve the model
(ModelNotReady when its `ready` flag is false), run the request middleware,
predict, force the response id to echo the request id, run the response
middleware. -/
def inferBody (b : InferBeh) (name : String) (version : Option String)
    (payload : InferenceRequest) : Except PErr InferenceResponse :=
  let payload1 := if payload.id = none then { payload with id := some b.freshId } else payload
  match b.resolve with
  | .error e => .error e
  | .ok ready =>
    if ¬ ready then .error (.modelNotReady name version)
    else
      match b.requestMw payload1 with
      | .error e => .error e
      | .ok payload2 =>
        match b.predict payload2 with
        | .error e => .error e
        | .ok pred =>
          let pred2 := { pred with id := payload2.id }
          match b.responseMw pred2 with
          | .error e => .error e
          | .ok pred3 => .ok pred3

/-- Continuation of infer after a successfully extracted SLA value: the gauge
is set, then the body runs inside the failure-counting and duration scopes;
an exception increments the failure counter and propagates, a normal return
increments the success counter. -/
def inferAfterSla (b : InferBeh) (name : String) (version : Option String)
    (payload : InferenceRequest) (sla : Int) : InferOutcome :=
  match inferBody b name version payload with
  | .error e => ⟨1, 0, 1, some sla, .error e⟩
  | .ok resp => ⟨1, 1, 0, some sla, .ok resp⟩

/-- Transcribes DataPlane.infer (dataplane.py lines 87-128).  The duration and
failure-counting scopes are created first but entered only at the `with`
statement; the total counter is incremented unconditionally; the SLA
extraction and gauge write happen before the `with` block, so an exception
escaping the SLA `try` propagates without touching the success or failure
counter and without setting the gauge. -/
def infer (b : InferBeh) (name : String) (version : Option String)
    (payload : InferenceRequest) : InferOutcome :=
  match slaStep payload with
  | .error e => ⟨1, 0, 0, none, .error e⟩
  | .ok sla => inferAfterSla b name version payload sla

/-- Modelled from the spec: the default-version ordering of section 3 as the
spec words it, as a comparison sign — a version-less Model is newer than a
versioned one; two versions that both parse as integers compare as integers;
otherwise they compare lexicographically as strings. -/
def specNewerSign (a b : MData) : Int :=
  match a.version, b.version with
  | none, _ => 1
  | some _, none => -1
  | some av, some bv =>
    match pyInt? av, pyInt? bv with
    | some ai, some bi => if ai > bi then 1 else if ai < bi then -1 else 0
    | _, _ => if av > bv then 1 else if av < bv then -1 else 0

/-- Read-only serviceability check used to state the rolling-reload property:
some model is reachable by `getModel` under the (truthy) version `v`, carries
name `n`, and has `ready = true`. -/
def servedB (h : Heap) (r : SReg) (n v : String) : Bool :=
  match dGet? r.versions v with
  | some m => (hGetD h m).name = n && (hGetD h m).ready
  | none => false

/-- Observable non-emptiness of a SingleModelRegistry: it has a version entry
or a set default pointer (heap-independent characterisation of the negation
of `empty()`). -/
def nonemptyB (c : SReg) : Bool :=
  !c.versions.isEmpty || c.dflt.isSome

/-- The MultiModelRegistry no-orphan invariant of the spec (section 8,
property 1): every name present in `models` maps to a non-empty child. -/
def mInv (s : MRState) : Bool :=
  s.models.all (fun p => nonemptyB p.2)

/-- Keys of an association list are pairwise distinct (dict well-formedness:
a Python dict never holds a key twice). -/
def nodupKeys {α : Type} : List (String × α) → Bool
  | [] => true
  | (k, _) :: rest => (dGet? rest k).isNone && nodupKeys rest

/-- Well-formed SingleModelRegistry state (the spec's invariants, section 3):
distinct version keys; every entry's model carries exactly its key as a
non-empty version; the default, when set, is either version-less or a
registered member under its own (non-empty) version. -/
def wfReg (h : Heap) (r : SReg) : Prop :=
  nodupKeys r.versions = true ∧
  (∀ p ∈ r.versions, (hGetD h p.2).version = some p.1 ∧ p.1 ≠ "") ∧
  (∀ d, r.dflt = some d →
    (hGetD h d).version = none ∨
    ∃ k, (hGetD h d).version = some k ∧ k ≠ "" ∧ dGet? r.versions k = some d)

/-- Behaviour with no hooks where every Model coroutine succeeds. -/
def behOk : Beh :=
  { initRaises := false
    loadFn := fun _ => .ok true
    unloadFn := fun _ => .ok true
    onLoad := []
    onReload := []
    onUnload := [] }

/-- Behaviour whose Model `unload` coroutine raises. -/
def behBadUnload : Beh := { behOk with unloadFn := fun _ => .error () }

/-- Behaviour whose Model `load` coroutine raises. -/
def behBadLoad : Beh := { behOk with loadFn := fun _ => .error () }

/-- On-load hook that returns a replacement object (a fresh wrapper at
address `m + 100` with the same observable fields). -/
def hookReplace : LoadHook := fun h m => .ok (m + 100, hSet h (m + 100) (hGetD h m))

/-- On-load hook that raises. -/
def hookRaise : LoadHook := fun _ _ => .error ()

/-- Behaviour with a single replacing on-load hook. -/
def behReplace : Beh := { behOk with onLoad := [hookReplace] }

/-- Behaviour whose on-load hooks first replace the model and then raise. -/
def behReplRaise : Beh := { behOk with onLoad := [hookReplace, hookRaise] }

/-- Infer-behaviour where resolution yields a ready model and every
middleware/predict step succeeds. -/
def behInferOk : InferBeh :=
  { resolve := .ok true
    requestMw := fun p => .ok p
    predict := fun _ => .ok ⟨none⟩
    responseMw := fun r => .ok r
    freshId := "uuid-0" }

/- ------------------------------------------------------------------ -/
/- Association-list and heap lemmas.                                  -/
/- ------------------------------------------------------------------ -/

theorem dGet?_dSet_self {α : Type} (l : List (String × α)) (k : String) (v : α) :
    dGet? (dSet l k v) k = some v := by
  induction l with
  | nil => simp [dSet, dGet?]
  | cons p rest ih =>
    by_cases h : p.1 = k
    · simp [dSet, dGet?, h]
    · simpa [dSet, dGet?, h] using ih

theorem dGet?_dSet_ne {α : Type} (l : List (String × α)) (k k' : String) (v : α)
    (h : k' ≠ k) : dGet? (dSet l k v) k' = dGet? l k' := by
  have hk : ¬ k = k' := fun he => h he.symm
  induction l with
  | nil => simp [dSet, dGet?, hk]
  | cons p rest ih =>
    by_cases hp : p.1 = k
    · simp [dSet, dGet?, hp, hk, h]
    · by_cases hq : p.1 = k'
      · simp [dSet, dGet?, hp, hq, hk, h]
      · simp [dSet, dGet?, hp, hq, ih]

theorem dGet?_dDel_ne {α : Type} (l : List (String × α)) (k k' : String)
    (h : k' ≠ k) : dGet? (dDel l k) k' = dGet? l k' := by
  have hk : ¬ k = k' := fun he => h he.symm
  induction l with
  | nil => simp [dDel]
  | cons p rest ih =>
    by_cases hp : p.1 = k
    · simp [dDel, dGet?, hp, hk, h]
    · by_cases hq : p.1 = k'
      · simp [dDel, dGet?, hp, hq, hk, h]
      · simp [dDel, dGet?, hp, hq, ih]

theorem mem_dDel {α : Type} {l : List (String × α)} {k : String} {p : String × α}
    (h : p ∈ dDel l k) : p ∈ l := by
  induction l with
  | nil => simp [dDel] at h
  | cons q rest ih =>
    by_cases hq : q.1 = k
    · simp only [dDel, if_pos hq] at h
      exact List.mem_cons_of_mem _ h
    · simp only [dDel, if_neg hq, List.mem_cons] at h
      rcases h with h | h
      · exact h ▸ List.mem_cons_self _ _
      · exact List.mem_cons_of_mem _ (ih h)

theorem mem_dSet {α : Type} {l : List (String × α)} {k : String} {v : α}
    {p : String × α} (h : p ∈ dSet l k v) : p = (k, v) ∨ p ∈ l := by
  induction l with
  | nil => simpa [dSet] using h
  | cons q rest ih =>
    by_cases hq : q.1 = k
    · simp only [dSet, if_pos hq, List.mem_cons] at h
      rcases h with h | h
      · exact Or.inl (by rw [h, hq])
      · exact Or.inr (List.mem_cons_of_mem _ h)
    · simp only [dSet, if_neg hq, List.mem_cons] at h
      rcases h with h | h
      · exact Or.inr (h ▸ List.mem_cons_self _ _)
      · rcases ih h with h' | h'
        · exact Or.inl h'
        · exact Or.inr (List.mem_cons_of_mem _ h')

theorem mem_dDel_dSet {α : Type} {l : List (String × α)} {k : String} {v : α}
    {p : String × α} (h : p ∈ dDel (dSet l k v) k) : p ∈ l := by
  induction l with
  | nil => simp [dSet, dDel] at h
  | cons q rest ih =>
    by_cases hq : q.1 = k
    · simp only [dSet, if_pos hq, dDel, if_pos hq] at h
      exact List.mem_cons_of_mem _ h
    · simp only [dSet, if_neg hq, dDel, if_neg hq, List.mem_cons] at h
      rcases h with h | h
      · exact h ▸ List.mem_cons_self _ _
      · exact List.mem_cons_of_mem _ (ih h)

theorem dSet_dSet_absent {α : Type} (l : List (String × α)) (k : String) (v w : α)
    (h : dGet? l k = none) : dSet (dSet l k v) k w = dSet l k w := by
  induction l with
  | nil => simp [dSet]
  | cons q rest ih =>
    by_cases hq : q.1 = k
    · simp [dGet?, hq] at h
    · simp only [dGet?, if_neg hq] at h
      simp [dSet, if_neg hq, ih h]

theorem dDel_dSet_absent {α : Type} (l : List (String × α)) (k : String) (v : α)
    (h : dGet? l k = none) : dDel (dSet l k v) k = l := by
  induction l with
  | nil => simp [dSet, dDel]
  | cons q rest ih =>
    by_cases hq : q.1 = k
    · simp [dGet?, hq] at h
    · simp only [dGet?, if_neg hq] at h
      simp [dSet, if_neg hq, dDel, ih h]

theorem dGet?_isSome_of_mem {α : Type} {l : List (String × α)} {p : String × α}
    (h : p ∈ l) : (dGet? l p.1).isSome := by
  induction l with
  | nil => simp at h
  | cons q rest ih =>
    rcases List.mem_cons.mp h with h' | h'
    · subst h'
      simp [dGet?]
    · by_cases hq : q.1 = p.1
      · simp [dGet?, hq]
      · simpa [dGet?, hq] using ih h'

theorem dGet?_of_mem_nodup {α : Type} {l : List (String × α)} {k : String} {v : α}
    (hn : nodupKeys l = true) (h : (k, v) ∈ l) : dGet? l k = some v := by
  induction l with
  | nil => simp at h
  | cons q rest ih =>
    simp only [nodupKeys, Bool.and_eq_true] at hn
    rcases List.mem_cons.mp h with h' | h'
    · simp [dGet?, ← h']
    · by_cases hq : q.1 = k
      · exfalso
        have hs := dGet?_isSome_of_mem h'
        simp only at hs
        rw [← hq] at hs
        rw [Option.isNone_iff_eq_none] at hn
        simp [hn.1] at hs
      · simpa [dGet?, hq] using ih hn.2 h'

theorem mem_of_dGet? {α : Type} {l : List (String × α)} {k : String} {v : α}
    (h : dGet? l k = some v) : (k, v) ∈ l := by
  induction l with
  | nil => simp [dGet?] at h
  | cons q rest ih =>
    by_cases hq : q.1 = k
    · simp only [dGet?, if_pos hq] at h
      have : q = (k, v) := by
        obtain ⟨q1, q2⟩ := q
        simp only at hq
        simp only [Option.some.injEq] at h
        rw [hq, h]
      exact this ▸ List.mem_cons_self _ _
    · simp only [dGet?, if_neg hq] at h
      exact List.mem_cons_of_mem _ (ih h)

theorem nodupKeys_dDel {α : Type} (l : List (String × α)) (k : String)
    (hn : nodupKeys l = true) : nodupKeys (dDel l k) = true := by
  induction l with
  | nil => simp [dDel, nodupKeys]
  | cons q rest ih =>
    simp only [nodupKeys, Bool.and_eq_true] at hn
    by_cases hq : q.1 = k
    · simpa [dDel, hq] using hn.2
    · have h1 : (dGet? (dDel rest k) q.1).isNone := by
        rw [dGet?_dDel_ne rest k q.1 (fun he => hq he)]
        exact hn.1
      simp only [dDel, if_neg hq, nodupKeys, Bool.and_eq_true]
      exact ⟨h1, ih hn.2⟩

theorem dGet?_dDel_self {α : Type} (l : List (String × α)) (k : String)
    (hn : nodupKeys l = true) : dGet? (dDel l k) k = none := by
  induction l with
  | nil => simp [dDel, dGet?]
  | cons q rest ih =>
    simp only [nodupKeys, Bool.and_eq_true] at hn
    by_cases hq : q.1 = k
    · rw [Option.isNone_iff_eq_none] at hn
      simpa [dDel, hq] using hq ▸ hn.1
    · simpa [dDel, if_neg hq, dGet?, hq] using ih hn.2

theorem dSet_ne_nil {α : Type} (l : List (String × α)) (k : String) (v : α) :
    dSet l k v ≠ [] := by
  cases l with
  | nil => simp [dSet]
  | cons q rest =>
    by_cases hq : q.1 = k <;> simp [dSet, hq]

theorem hGet?_hSet_self (h : Heap) (i : Nat) (d : MData) :
    hGet? (hSet h i d) i = some d := by
  induction h with
  | nil => simp [hSet, hGet?]
  | cons p rest ih =>
    by_cases hp : p.1 = i
    · simp [hSet, hGet?, hp]
    · simpa [hSet, hGet?, hp] using ih

theorem hGet?_hSet_ne (h : Heap) (i j : Nat) (d : MData) (hij : j ≠ i) :
    hGet? (hSet h i d) j = hGet? h j := by
  have hk : ¬ i = j := fun he => hij he.symm
  induction h with
  | nil => simp [hSet, hGet?, hk]
  | cons p rest ih =>
    by_cases hp : p.1 = i
    · simp [hSet, hGet?, hp, hk, hij]
    · by_cases hq : p.1 = j
      · simp [hSet, hGet?, hp, hq, hk, hij]
      · simp [hSet, hGet?, hp, hq, ih]

theorem hGetD_hSet_self (h : Heap) (i : Nat) (d : MData) :
    hGetD (hSet h i d) i = d := by
  simp [hGetD, hGet?_hSet_self]

theorem hGetD_hSet_ne (h : Heap) (i j : Nat) (d : MData) (hij : j ≠ i) :
    hGetD (hSet h i d) j = hGetD h j := by
  simp [hGetD, hGet?_hSet_ne h i j d hij]

theorem version_hSet_ready (h : Heap) (i j : Nat) (b : Bool) :
    (hGetD (hSet h i { hGetD h i with ready := b }) j).version = (hGetD h j).version := by
  by_cases hij : j = i
  · subst hij
    rw [hGetD_hSet_self]
  · rw [hGetD_hSet_ne h i j _ hij]

theorem name_hSet_ready (h : Heap) (i j : Nat) (b : Bool) :
    (hGetD (hSet h i { hGetD h i with ready := b }) j).name = (hGetD h j).name := by
  by_cases hij : j = i
  · subst hij
    rw [hGetD_hSet_self]
  · rw [hGetD_hSet_ne h i j _ hij]

theorem foldl_choice_mem {α : Type} (p : α → α → Prop) [∀ a b, Decidable (p a b)] :
    ∀ (vs : List α) (v : α),
      List.foldl (fun cur n => if p n cur then n else cur) v vs ∈ v :: vs := by
  intro vs
  induction vs with
  | nil => intro v; simp
  | cons x rest ih =>
    intro v
    simp only [List.foldl_cons]
    by_cases hx : p x v
    · simp only [if_pos hx]
      rcases List.mem_cons.mp (ih x) with h | h
      · simp [h]
      · simp [List.mem_cons_of_mem _ (List.mem_cons_of_mem _ h)]
    · simp only [if_neg hx]
      rcases List.mem_cons.mp (ih v) with h | h
      · simp [h]
      · simp [List.mem_cons_of_mem _ (List.mem_cons_of_mem _ h)]

/- ------------------------------------------------------------------ -/
/- Structural lemmas on the registry operations.                      -/
/- ------------------------------------------------------------------ -/

theorem refresh_default_versions (h : Heap) (r : SReg) (x : Option Nat) :
    (refresh_default h r x).2.versions = r.versions := by
  unfold refresh_default
  rcases x with _ | m <;> rcases hd : r.dflt with _ | d <;> simp only [hd] <;>
    (repeat' split) <;> simp

theorem refresh_default_name (h : Heap) (r : SReg) (x : Option Nat) :
    (refresh_default h r x).2.name = r.name := by
  unfold refresh_default
  rcases x with _ | m <;> rcases hd : r.dflt with _ | d <;> simp only [hd] <;>
    (repeat' split) <;> simp

theorem default_prop_versions (h : Heap) (r : SReg) :
    (default_prop h r).2.versions = r.versions := by
  unfold default_prop
  rcases hd : r.dflt with _ | d <;> simp [hd]

theorem default_prop_name (h : Heap) (r : SReg) :
    (default_prop h r).2.name = r.name := by
  unfold default_prop
  rcases hd : r.dflt with _ | d <;> simp [hd]

theorem default_prop_dflt (h : Heap) (r : SReg) :
    (default_prop h r).2.dflt = (default_prop h r).1 := by
  unfold default_prop
  rcases hd : r.dflt with _ | d <;> simp [hd]

theorem default_prop_of_some (h : Heap) (r : SReg) (d : Nat) (hd : r.dflt = some d) :
    default_prop h r = (some d, r) := by
  unfold default_prop
  simp [hd]

theorem refresh_some_cases (h : Heap) (r : SReg) (m : Nat) :
    (refresh_default h r (some m)).2.dflt = some m ∨
      ((refresh_default h r (some m)).2 = r ∧ ∃ d, r.dflt = some d) := by
  unfold refresh_default
  rcases hd : r.dflt with _ | d
  · simp [hd]
  · simp only [hd]
    split
    · simp
    · split
      · exact Or.inr ⟨rfl, d, rfl⟩
      · split
        · simp
        · exact Or.inr ⟨rfl, d, rfl⟩

theorem register_versions_truthy (h : Heap) (r : SReg) (m : Nat)
    (ht : truthyS (hGetD h m).version = true) :
    (register h r m).versions = dSet r.versions (((hGetD h m).version).getD "") m := by
  unfold register
  rw [if_pos ht, refresh_default_versions]

theorem register_versions_falsy (h : Heap) (r : SReg) (m : Nat)
    (ht : truthyS (hGetD h m).version = false) :
    (register h r m).versions = r.versions := by
  unfold register
  rw [if_neg (by simp [ht]), refresh_default_versions]

theorem register_name (h : Heap) (r : SReg) (m : Nat) :
    (register h r m).name = r.name := by
  unfold register
  split <;> rw [refresh_default_name]

theorem register_dflt_cases (h : Heap) (r : SReg) (m : Nat) :
    (register h r m).dflt = some m ∨
      ((register h r m).dflt = r.dflt ∧ ∃ d, r.dflt = some d) := by
  unfold register
  split
  · rcases refresh_some_cases h { r with versions := dSet r.versions (((hGetD h m).version).getD "") m } m with hc | hc
    · exact Or.inl hc
    · exact Or.inr ⟨by rw [hc.1], hc.2⟩
  · rcases refresh_some_cases h r m with hc | hc
    · exact Or.inl hc
    · exact Or.inr ⟨by rw [hc.1], hc.2⟩

theorem register_dflt_isSome (h : Heap) (r : SReg) (m : Nat) :
    (register h r m).dflt.isSome := by
  rcases register_dflt_cases h r m with hc | hc
  · simp [hc]
  · obtain ⟨d, hd⟩ := hc.2
    simp [hc.1, hd]

theorem empty_check_false_nonempty (h : Heap) (c : SReg)
    (hb : (empty_check h c).1 = false) : nonemptyB (empty_check h c).2 = true := by
  by_cases hv : c.versions = []
  · rcases hd : c.dflt with _ | d
    · exfalso
      have ht : (empty_check h c).1 = true := by
        unfold empty_check default_prop find_default
        simp [hv, hd, dValues]
      rw [ht] at hb
      exact Bool.noConfusion hb
    · have he : empty_check h c = (false, c) := by
        unfold empty_check
        rw [default_prop_of_some h c d hd]
        simp [hv]
      rw [he]
      simp [nonemptyB, hd]
  · have he : empty_check h c = (false, c) := by
      unfold empty_check
      simp [hv]
    rw [he]
    simp [nonemptyB, hv]

theorem sign_lex_cmp (av bv : String) :
    (if bv < av then (1 : Int) else if av < bv then -1 else 0).sign =
      if bv < av then (1 : Int) else if av < bv then -1 else 0 := by
  rcases lt_trichotomy av bv with hlt | heq | hgt
  · rw [if_neg (asymm hlt), if_pos hlt]
    decide
  · subst heq
    rw [if_neg (lt_irrefl av), if_neg (lt_irrefl av)]
    decide
  · rw [if_pos hgt]
    decide

theorem sign_int_diff (ai bi : Int) :
    (ai - bi).sign = if bi < ai then (1 : Int) else if ai < bi then -1 else 0 := by
  rcases lt_trichotomy ai bi with hlt | heq | hgt
  · rw [if_neg (by omega : ¬ bi < ai), if_pos hlt, Int.sign_eq_neg_one_iff_neg]
    omega
  · rw [if_neg (by omega : ¬ bi < ai), if_neg (by omega : ¬ ai < bi)]
    subst heq
    simp
  · rw [if_pos hgt, Int.sign_eq_one_iff_pos]
    omega

/- ------------------------------------------------------------------ -/
/- Claim C8: default-version ordering.                                -/
/- ------------------------------------------------------------------ -/

/-- C8 counterexample: models at addresses 0 and 1 both carry version "1", so
the comparison is equal, yet `_refresh_default` with the new model replaces
the default pointer (it tests `_is_newer(new, default) >= 0`), contradicting
"an equal comparison keeps the current default when refreshing". -/
theorem c8_counterexample :
    is_newer (hGetD [(0, ⟨"m", some "1", true⟩), (1, ⟨"m", some "1", false⟩)] 1)
        (hGetD [(0, ⟨"m", some "1", true⟩), (1, ⟨"m", some "1", false⟩)] 0) = 0 ∧
    (refresh_default [(0, ⟨"m", some "1", true⟩), (1, ⟨"m", some "1", false⟩)]
        ⟨"m", [("1", 0)], some 0⟩ (some 1)).2.dflt = some 1 ∧
    some 1 ≠ (⟨"m", [("1", 0)], some 0⟩ : SReg).dflt := by
  exact ⟨by decide, by decide, by decide⟩

/-- C8 (amended): `_is_newer` agrees in sign with the spec's ordering — a
version-less Model is newer than a versioned one, two integer-parsing
versions compare as integers ("10" newer than "9"), otherwise versions
compare lexicographically as strings — but on an equal comparison
`_refresh_default` adopts the NEW model as default rather than keeping the
current one. -/
theorem c8_is_newer_amended :
    (∀ a b : MData, (is_newer a b).sign = specNewerSign a b) ∧
    (∀ (h : Heap) (r : SReg) (m d : Nat), r.dflt = some d →
      (hGetD h m).version ≠ none → (hGetD h d).version ≠ none →
      is_newer (hGetD h m) (hGetD h d) = 0 →
      (refresh_default h r (some m)).2.dflt = some m) := by
  constructor
  · intro a b
    unfold is_newer specNewerSign
    rcases ha : a.version with _ | av
    · simp
    · rcases hb : b.version with _ | bv
      · simp
      · simp only [gt_iff_lt]
        rcases hia : pyInt? av with _ | ai <;> rcases hib : pyInt? bv with _ | bi
        · exact sign_lex_cmp av bv
        · exact sign_lex_cmp av bv
        · exact sign_lex_cmp av bv
        · exact sign_int_diff ai bi
  · intro h r m d hd hm hdm hz
    unfold refresh_default
    simp only [hd]
    rw [if_neg hm, if_neg hdm, if_pos hz.ge]

/-- C8 amended witness: concrete instances — "10" against "9" agrees with the
spec ordering in sign, and refreshing with an equal-version model adopts the
new model. -/
theorem c8_amended_witness :
    (is_newer ⟨"m", some "10", false⟩ ⟨"m", some "9", false⟩).sign =
      specNewerSign ⟨"m", some "10", false⟩ ⟨"m", some "9", false⟩ ∧
    (refresh_default [(0, ⟨"m", some "2", true⟩), (1, ⟨"m", some "2", false⟩)]
        ⟨"m", [("2", 0)], some 0⟩ (some 1)).2.dflt = some 1 :=
  ⟨c8_is_newer_amended.1 _ _,
   c8_is_newer_amended.2 _ _ 1 0 rfl (by decide) (by decide) (by decide)⟩

/- ------------------------------------------------------------------ -/
/- Claim C10: model_ready resolution.                                 -/
/- ------------------------------------------------------------------ -/

/-- C10: DataPlane.model_ready never returns a boolean for an unresolvable
model — its result equals the spec-side resolution: ModelNotFound when the
name has no child or the versioned lookup (or defaulting) fails, and otherwise
exactly the resolved Model's `ready` flag. -/
theorem c10_model_ready_resolution :
    ∀ (s : MRState) (name : String) (version : Option String),
      (model_ready s name version).1 =
        (resolveSpec s name version).map (fun m => (hGetD s.heap m).ready) := by
  intro s name version
  unfold model_ready mget_model resolveSpec sget_model find_model
  rcases hc : dGet? s.models name with _ | c
  · simp [Except.map]
  · simp only
    cases ht : truthyS version
    · simp only [Bool.false_eq_true, if_neg]
      rcases hdp : default_prop s.heap c with ⟨d, c2⟩
      rcases d with _ | m
      · simp [hdp, ht, Except.map]
      · simp [hdp, ht, Except.map]
    · simp only [if_pos ht]
      rcases hv : dGet? c.versions (version.getD "") with _ | m
      · simp [ht, hv, Except.map]
      · simp [ht, hv, Except.map]

/- ------------------------------------------------------------------ -/
/- Claim C3: SLA extraction defaulting.                               -/
/- ------------------------------------------------------------------ -/

/-- C3 counterexample: a request whose first input carries an
extended-parameters mapping without the "sla" key.  The lookup raises
KeyError, which the `except (AttributeError, TypeError)` clause does not
catch: infer propagates the error without setting the SLA gauge (and without
touching the success or failure counter), instead of defaulting to 0 and
proceeding. -/
theorem c3_counterexample :
    infer behInferOk "m" none ⟨none, [⟨some ⟨some []⟩⟩]⟩ =
      ⟨1, 0, 0, none, .error .keyError⟩ := by
  rfl

/-- C3 (amended): when the absence is one that surfaces as AttributeError or
TypeError — the first input has no `parameters`, or its parameters have no
`extended_parameters` — infer defaults the SLA to 0, writes it to the gauge,
and proceeds into the request body; but a missing first input (IndexError) or
a mapping without the "sla" key (KeyError) propagates out of infer instead. -/
theorem c3_sla_default_amended :
    ∀ (b : InferBeh) (n : String) (v : Option String) (p : InferenceRequest)
      (i : RequestInput) (rest : List RequestInput) (pr : InputParameters),
      p.inputs = i :: rest →
      (i.parameters = none ∨ (i.parameters = some pr ∧ pr.extended_parameters = none)) →
      infer b n v p = inferAfterSla b n v p 0 ∧ (infer b n v p).slaSet = some 0 := by
  intro b n v p i rest pr hin habs
  have hstep : slaStep p = .ok 0 := by
    rcases habs with h1 | ⟨h1, h2⟩
    · unfold slaStep slaLookup
      rw [hin]
      simp [h1]
    · unfold slaStep slaLookup
      rw [hin]
      simp [h1, h2]
  have h1 : infer b n v p = inferAfterSla b n v p 0 := by
    unfold infer
    rw [hstep]
  refine ⟨h1, ?_⟩
  rw [h1]
  unfold inferAfterSla
  cases hb : inferBody b n v p <;> simp [hb]

/-- C3 amended witness: a request whose first input has no parameters is
served with the SLA gauge set to 0. -/
theorem c3_sla_default_witness :
    infer behInferOk "m" none ⟨none, [⟨none⟩]⟩ =
      inferAfterSla behInferOk "m" none ⟨none, [⟨none⟩]⟩ 0 ∧
    (infer behInferOk "m" none ⟨none, [⟨none⟩]⟩).slaSet = some 0 :=
  c3_sla_default_amended behInferOk "m" none ⟨none, [⟨none⟩]⟩ ⟨none⟩ [] ⟨none⟩
    rfl (Or.inl rfl)

/- ------------------------------------------------------------------ -/
/- Claim C2: infer counter discipline.                                -/
/- ------------------------------------------------------------------ -/

/-- C2 counterexample: a request with an empty inputs list.  Its SLA
extraction raises IndexError before the failure-counting scope is entered, so
the call raises with NEITHER the success nor the failure counter incremented,
refuting "for every call exactly one of the success and failure counters is
incremented". -/
theorem c2_counterexample :
    infer behInferOk "m" none ⟨none, []⟩ = ⟨1, 0, 0, none, .error .indexError⟩ ∧
    (infer behInferOk "m" none ⟨none, []⟩).successInc = 0 ∧
    (infer behInferOk "m" none ⟨none, []⟩).failureInc = 0 := by
  exact ⟨rfl, rfl, rfl⟩

/-- C2 (amended): every call increments the total counter exactly once; an
exception escaping the SLA-extraction step propagates with neither the
success nor the failure counter incremented; for every other call exactly one
of the two is incremented — failure exactly when an exception is raised inside
the `with` block (steps 5-10) and success exactly when the call completes. -/
theorem c2_infer_counters_amended :
    ∀ (b : InferBeh) (n : String) (v : Option String) (p : InferenceRequest),
      (infer b n v p).totalInc = 1 ∧
      (∀ e, slaStep p = .error e → infer b n v p = ⟨1, 0, 0, none, .error e⟩) ∧
      (∀ sla, slaStep p = .ok sla →
        (((infer b n v p).successInc = 1 ∧ (infer b n v p).failureInc = 0 ∧
            ∃ resp, (infer b n v p).result = .ok resp) ∨
          ((infer b n v p).successInc = 0 ∧ (infer b n v p).failureInc = 1 ∧
            ∃ e, (infer b n v p).result = .error e))) := by
  intro b n v p
  refine ⟨?_, ?_, ?_⟩
  · unfold infer
    cases hs : slaStep p
    · rfl
    · unfold inferAfterSla
      cases hb : inferBody b n v p <;> rfl
  · intro e he
    unfold infer
    rw [he]
  · intro sla hs
    unfold infer
    rw [hs]
    unfold inferAfterSla
    cases hb : inferBody b n v p with
    | error e => exact Or.inr ⟨rfl, rfl, e, rfl⟩
    | ok resp => exact Or.inl ⟨rfl, rfl, resp, rfl⟩

/-- C2 amended witness: a successful call increments only the success
counter; the counterexample input increments neither. -/
theorem c2_infer_counters_witness :
    (infer behInferOk "m" none ⟨some "id-1", [⟨none⟩]⟩).totalInc = 1 ∧
    (((infer behInferOk "m" none ⟨some "id-1", [⟨none⟩]⟩).successInc = 1 ∧
        (infer behInferOk "m" none ⟨some "id-1", [⟨none⟩]⟩).failureInc = 0 ∧
        ∃ resp, (infer behInferOk "m" none ⟨some "id-1", [⟨none⟩]⟩).result = .ok resp) ∨
      ((infer behInferOk "m" none ⟨some "id-1", [⟨none⟩]⟩).successInc = 0 ∧
        (infer behInferOk "m" none ⟨some "id-1", [⟨none⟩]⟩).failureInc = 1 ∧
        ∃ e, (infer behInferOk "m" none ⟨some "id-1", [⟨none⟩]⟩).result = .error e)) := by
  refine ⟨(c2_infer_counters_amended behInferOk "m" none ⟨some "id-1", [⟨none⟩]⟩).1, ?_⟩
  exact (c2_infer_counters_amended behInferOk "m" none ⟨some "id-1", [⟨none⟩]⟩).2.2 0 rfl

/- ------------------------------------------------------------------ -/
/- Path characterisations of SingleModelRegistry.load.                -/
/- ------------------------------------------------------------------ -/

theorem sload_reload (beh : Beh) (h : Heap) (r : SReg) (ms : ModelSettings)
    (newId : Nat) (v : String) (old : Nat)
    (hv : get_version ms = some v) (hvne : v ≠ "")
    (hold : dGet? r.versions v = some old) (hinit : beh.initRaises = false) :
    sload beh h r ms newId =
      ((reload_model beh (hSet h newId ⟨ms.name, some v, false⟩) r old newId).1.map
          (fun _ => newId),
        (reload_model beh (hSet h newId ⟨ms.name, some v, false⟩) r old newId).2.1,
        (reload_model beh (hSet h newId ⟨ms.name, some v, false⟩) r old newId).2.2) := by
  have htr : truthyS (some v) = true := by simp [truthyS, hvne]
  unfold sload find_model
  rw [hv]
  simp [htr, hold, hinit]

theorem sload_firstload (beh : Beh) (h : Heap) (r : SReg) (ms : ModelSettings)
    (newId : Nat) (v : String)
    (hv : get_version ms = some v) (hvne : v ≠ "")
    (habs : dGet? r.versions v = none) (hinit : beh.initRaises = false) :
    sload beh h r ms newId =
      ((load_model beh (hSet h newId ⟨ms.name, some v, false⟩) r newId).1.map
          (fun _ => newId),
        (load_model beh (hSet h newId ⟨ms.name, some v, false⟩) r newId).2.1,
        (load_model beh (hSet h newId ⟨ms.name, some v, false⟩) r newId).2.2) := by
  have htr : truthyS (some v) = true := by simp [truthyS, hvne]
  unfold sload find_model
  rw [hv]
  simp [htr, habs, hinit]

theorem reload_model_hookfail (beh : Beh) (h : Heap) (r : SReg) (old nw n1 : Nat)
    (h1 : Heap)
    (hrun : runReloadHooks beh.onReload h old nw = (false, n1, h1)) :
    reload_model beh h r old nw = (.error .hookError, h1, r) := by
  unfold reload_model
  rw [hrun]

theorem reload_model_loadfail (beh : Beh) (h : Heap) (r : SReg) (old nw n1 : Nat)
    (h1 : Heap)
    (hrun : runReloadHooks beh.onReload h old nw = (true, n1, h1))
    (hlf : beh.loadFn n1 = .error ()) :
    reload_model beh h r old nw = (.error .hookError, h1, r) := by
  unfold reload_model
  rw [hrun]
  simp [hlf]

theorem load_model_ok (beh : Beh) (h : Heap) (r : SReg) (m m1 : Nat) (h1 : Heap)
    (b : Bool)
    (hrun : runLoadHooks beh.onLoad h m = (true, m1, h1))
    (hlf : beh.loadFn m1 = .ok b) :
    load_model beh h r m =
      (.ok (), hSet h1 m1 { hGetD h1 m1 with ready := b },
        register h1 (register h r m) m1) := by
  unfold load_model
  rw [hrun]
  simp [hlf]

/- ------------------------------------------------------------------ -/
/- Claim C5: reload atomicity.                                        -/
/- ------------------------------------------------------------------ -/

/-- C5: if, during a reload (load of a version already present), a reload
hook or the new model's load step raises, then the error propagates, the
registry ends in exactly its pre-reload state — the old model still
registered under its version — and the new model was never entered into the
versions map or the default pointer. -/
theorem c5_reload_atomic :
    ∀ (beh : Beh) (h : Heap) (r : SReg) (ms : ModelSettings) (newId : Nat)
      (v : String) (old : Nat) (ok1 : Bool) (n1 : Nat) (h1 : Heap),
      get_version ms = some v → v ≠ "" →
      dGet? r.versions v = some old →
      beh.initRaises = false →
      runReloadHooks beh.onReload (hSet h newId ⟨ms.name, some v, false⟩) old newId =
        (ok1, n1, h1) →
      (ok1 = false ∨ beh.loadFn n1 = .error ()) →
      (sload beh h r ms newId).1 = .error .hookError ∧
      (sload beh h r ms newId).2.2 = r ∧
      dGet? (sload beh h r ms newId).2.2.versions v = some old := by
  intro beh h r ms newId v old ok1 n1 h1 hv hvne hold hinit hrun hfail
  rw [sload_reload beh h r ms newId v old hv hvne hold hinit]
  rcases hfail with hf | hf
  · rw [hf] at hrun
    rw [reload_model_hookfail beh _ r old newId n1 h1 hrun]
    exact ⟨rfl, rfl, hold⟩
  · cases ok1
    · rw [reload_model_hookfail beh _ r old newId n1 h1 hrun]
      exact ⟨rfl, rfl, hold⟩
    · rw [reload_model_loadfail beh _ r old newId n1 h1 hrun hf]
      exact ⟨rfl, rfl, hold⟩

/-- C5 witness: a concrete reload whose new-model load raises leaves the
one-version registry untouched. -/
theorem c5_reload_atomic_witness :
    (sload behBadLoad [(0, ⟨"m", some "1", true⟩)] ⟨"m", [("1", 0)], some 0⟩
        ⟨"m", some ⟨some "1"⟩⟩ 1).1 = .error .hookError ∧
    (sload behBadLoad [(0, ⟨"m", some "1", true⟩)] ⟨"m", [("1", 0)], some 0⟩
        ⟨"m", some ⟨some "1"⟩⟩ 1).2.2 = ⟨"m", [("1", 0)], some 0⟩ ∧
    dGet? (sload behBadLoad [(0, ⟨"m", some "1", true⟩)] ⟨"m", [("1", 0)], some 0⟩
        ⟨"m", some ⟨some "1"⟩⟩ 1).2.2.versions "1" = some 0 :=
  c5_reload_atomic behBadLoad [(0, ⟨"m", some "1", true⟩)] ⟨"m", [("1", 0)], some 0⟩
    ⟨"m", some ⟨some "1"⟩⟩ 1 "1" 0 true 1 _ rfl (by decide) rfl rfl rfl (Or.inr rfl)

/- ------------------------------------------------------------------ -/
/- Claim C4: load result vs registered model.                         -/
/- ------------------------------------------------------------------ -/

/-- C4 counterexample: with one on-load hook that returns a replacement
object, `load` succeeds returning the originally-initialised model (address
0), while `getModel` for the version returns the hook's replacement (address
100) — so the claim that `getModel` returns exactly the object `load`
returned, including hook replacements, fails. -/
theorem c4_counterexample :
    (sload behReplace [] ⟨"m", [], none⟩ ⟨"m", some ⟨some "1"⟩⟩ 0).1 = .ok 0 ∧
    (sget_model (sload behReplace [] ⟨"m", [], none⟩ ⟨"m", some ⟨some "1"⟩⟩ 0).2.1
        (sload behReplace [] ⟨"m", [], none⟩ ⟨"m", some ⟨some "1"⟩⟩ 0).2.2
        (some "1")).1 = .ok 100 ∧
    (0 : Nat) ≠ 100 := by
  exact ⟨rfl, rfl, by decide⟩

/-- C4 (amended): after `load(settings)` completes successfully (hooks
succeed, keeping the settings' version, and the model's load step returns
true), `getModel(settings.parameters.version)` returns the newly live
hook-replaced Model and that Model's ready flag is true; `load`'s own return
value is the originally-initialised object, which coincides with the
registered one only when no hook replaced it. -/
theorem c4_load_getModel_amended :
    ∀ (beh : Beh) (h : Heap) (r : SReg) (ms : ModelSettings) (newId : Nat)
      (v : String) (m1 : Nat) (h1 : Heap),
      get_version ms = some v → v ≠ "" →
      dGet? r.versions v = none →
      beh.initRaises = false →
      runLoadHooks beh.onLoad (hSet h newId ⟨ms.name, some v, false⟩) newId =
        (true, m1, h1) →
      (hGetD h1 m1).version = some v →
      beh.loadFn m1 = .ok true →
      (sload beh h r ms newId).1 = .ok newId ∧
      (sget_model (sload beh h r ms newId).2.1 (sload beh h r ms newId).2.2
          (some v)).1 = .ok m1 ∧
      (hGetD (sload beh h r ms newId).2.1 m1).ready = true := by
  intro beh h r ms newId v m1 h1 hv hvne habs hinit hrun hver hlf
  rw [sload_firstload beh h r ms newId v hv hvne habs hinit]
  rw [load_model_ok beh _ r newId m1 h1 true hrun hlf]
  have htr : truthyS (some v) = true := by simp [truthyS, hvne]
  have hreg2 : (register h1 (register (hSet h newId ⟨ms.name, some v, false⟩) r newId) m1).versions =
      dSet (register (hSet h newId ⟨ms.name, some v, false⟩) r newId).versions v m1 := by
    have := register_versions_truthy h1
      (register (hSet h newId ⟨ms.name, some v, false⟩) r newId) m1 (by rw [hver]; exact htr)
    rw [this, hver]
    rfl
  refine ⟨rfl, ?_, ?_⟩
  · unfold sget_model find_model
    simp only [htr, if_pos]
    have : dGet? (register h1 (register (hSet h newId ⟨ms.name, some v, false⟩) r newId) m1).versions
        (((some v) : Option String).getD "") = some m1 := by
      rw [hreg2]
      exact dGet?_dSet_self _ v m1
    rw [this]
  · rw [hGetD_hSet_self]

/-- C4 amended witness: a hook-free successful first load at version "1". -/
theorem c4_load_getModel_witness :
    (sload behOk [] ⟨"m", [], none⟩ ⟨"m", some ⟨some "1"⟩⟩ 0).1 = .ok 0 ∧
    (sget_model (sload behOk [] ⟨"m", [], none⟩ ⟨"m", some ⟨some "1"⟩⟩ 0).2.1
        (sload behOk [] ⟨"m", [], none⟩ ⟨"m", some ⟨some "1"⟩⟩ 0).2.2
        (some "1")).1 = .ok 0 ∧
    (hGetD (sload behOk [] ⟨"m", [], none⟩ ⟨"m", some ⟨some "1"⟩⟩ 0).2.1 0).ready = true :=
  c4_load_getModel_amended behOk [] ⟨"m", [], none⟩ ⟨"m", some ⟨some "1"⟩⟩ 0 "1" 0 _
    rfl (by decide) rfl rfl rfl (by rw [hGetD_hSet_self]) rfl

/- ------------------------------------------------------------------ -/
/- Claim C6: rolling reload.                                          -/
/- ------------------------------------------------------------------ -/

theorem hGetD_congr (h1 h2 : Heap) (i : Nat) (he : hGet? h1 i = hGet? h2 i) :
    hGetD h1 i = hGetD h2 i := by
  unfold hGetD
  rw [he]

theorem served_of (hh : Heap) (r : SReg) (m : Nat) (n v : String)
    (hv : v ≠ "") (hm : dGet? r.versions v = some m)
    (hname : (hGetD hh m).name = n) (hready : (hGetD hh m).ready = true) :
    ∃ m', (sget_model hh r (some v)).1 = .ok m' ∧
      (hGetD hh m').name = n ∧ (hGetD hh m').ready = true := by
  refine ⟨m, ?_, hname, hready⟩
  unfold sget_model find_model
  simp [truthyS, hv, hm]

theorem runReloadHooksT_fst (cbs : List ReloadCB) :
    ∀ (h : Heap) (old nw : Nat),
      (runReloadHooksT cbs h old nw).1 = runReloadHooks cbs h old nw := by
  induction cbs with
  | nil => intro h old nw; rfl
  | cons cb rest ih =>
    intro h old nw
    unfold runReloadHooksT runReloadHooks
    cases hap : applyReloadCB cb h old nw with
    | error e => rfl
    | ok p =>
      obtain ⟨nw2, h2⟩ := p
      simp [ih h2 old nw2]

theorem reload_hooks_preserve (old : Nat) (cbs : List ReloadCB) :
    (∀ cb ∈ cbs, ∀ h' w m h2, applyReloadCB cb h' old w = .ok (m, h2) →
      hGet? h2 old = hGet? h' old) →
    ∀ (h : Heap) (nw : Nat),
      (∀ hh ∈ (runReloadHooksT cbs h old nw).2, hGet? hh old = hGet? h old) ∧
      hGet? (runReloadHooksT cbs h old nw).1.2.2 old = hGet? h old := by
  induction cbs with
  | nil =>
    intro _ h nw
    constructor
    · intro hh hmem
      simp [runReloadHooksT] at hmem
    · rfl
  | cons cb rest ih =>
    intro hpres h nw
    have hcb := hpres cb (List.mem_cons_self _ _)
    have ihr := ih (fun c hc => hpres c (List.mem_cons_of_mem _ hc))
    cases hap : applyReloadCB cb h old nw with
    | error e =>
      constructor
      · intro hh hmem
        simp [runReloadHooksT, hap] at hmem
      · simp [runReloadHooksT, hap]
    | ok p =>
      obtain ⟨nw2, h2⟩ := p
      have hp : hGet? h2 old = hGet? h old := hcb h nw nw2 h2 hap
      constructor
      · intro hh hmem
        simp only [runReloadHooksT, hap] at hmem
        rcases List.mem_cons.mp hmem with he | he
        · rw [he]
          exact hp
        · rw [(ih (fun c hc => hpres c (List.mem_cons_of_mem _ hc)) h2 nw2).1 hh he, hp]
      · simp only [runReloadHooksT, hap]
        rw [(ihr h2 nw2).2, hp]

/-- C6: rolling reload — when the old model under the target version is ready
and the reload runs to completion (hooks succeed without disturbing the old
model's heap entry or moving the version, and the new model's load returns
true), then at every await/assignment boundary of `_reload_model` some model
with the target name and target version is reachable by `getModel` and has
`ready = true`; in particular the new model's ready is set true before the
old model is unloaded and unreadied. -/
theorem c6_rolling_reload :
    ∀ (beh : Beh) (h : Heap) (r : SReg) (old newId : Nat) (n v : String)
      (n1 : Nat) (h1 : Heap),
      v ≠ "" →
      dGet? r.versions v = some old →
      hGetD h old = ⟨n, some v, true⟩ →
      (∀ cb ∈ beh.onReload, ∀ h' w m h2, applyReloadCB cb h' old w = .ok (m, h2) →
        hGet? h2 old = hGet? h' old) →
      runReloadHooks beh.onReload h old newId = (true, n1, h1) →
      n1 ≠ old →
      (hGetD h1 n1).name = n →
      (hGetD h1 n1).version = some v →
      beh.loadFn n1 = .ok true →
      ∀ p ∈ (reload_model_t beh h r old newId).2,
        ∃ m, (sget_model p.1 p.2 (some v)).1 = .ok m ∧
          (hGetD p.1 m).name = n ∧ (hGetD p.1 m).ready = true := by
  intro beh h r old newId n v n1 h1 hv hold holddata hpres hrun hne hname hver hlf
  have hTfst : (runReloadHooksT beh.onReload h old newId).1 = (true, n1, h1) := by
    rw [runReloadHooksT_fst, hrun]
  have hT : runReloadHooksT beh.onReload h old newId =
      ((true, n1, h1), (runReloadHooksT beh.onReload h old newId).2) := by
    rw [← hTfst]
  obtain ⟨tr, hT2⟩ : ∃ tr, runReloadHooksT beh.onReload h old newId = ((true, n1, h1), tr) :=
    ⟨(runReloadHooksT beh.onReload h old newId).2, hT⟩
  have hTsnd : (runReloadHooksT beh.onReload h old newId).2 = tr := by
    rw [hT2]
  have hTpres := reload_hooks_preserve old beh.onReload hpres h newId
  -- serving by the old model in any heap whose entry for `old` is unchanged
  have serveOld : ∀ hh : Heap, hGet? hh old = hGet? h old →
      ∃ m, (sget_model hh r (some v)).1 = .ok m ∧
        (hGetD hh m).name = n ∧ (hGetD hh m).ready = true := by
    intro hh he
    have hd : hGetD hh old = ⟨n, some v, true⟩ := by
      rw [hGetD_congr hh h old he, holddata]
    exact served_of hh r old n v hv hold (by rw [hd]) (by rw [hd])
  -- abbreviations for the post-hook states
  set h2 := hSet h1 n1 { hGetD h1 n1 with ready := true } with hh2
  set r1 := register h2 r n1 with hr1
  set dp := default_prop h2 r1 with hdp
  set r3 := (if dp.1 = some old then { dp.2 with dflt := none } else dp.2 : SReg) with hr3def
  -- data of the new model after its ready flag is set
  have h2def : hGetD h2 n1 = { hGetD h1 n1 with ready := true } := hGetD_hSet_self h1 n1 _
  -- the registered registry after the swap
  have hr1v : r1.versions = dSet r.versions v n1 := by
    rw [hr1]
    have htr : truthyS (hGetD h2 n1).version = true := by
      rw [h2def]
      simp only
      rw [hver]
      simp [truthyS, hv]
    rw [register_versions_truthy _ _ _ htr, h2def]
    simp only
    rw [hver]
    rfl
  have hr2v : dp.2.versions = dSet r.versions v n1 := by
    rw [hdp, default_prop_versions]
    exact hr1v
  have hr3v : r3.versions = dSet r.versions v n1 := by
    rw [hr3def]
    split
    · simpa using hr2v
    · exact hr2v
  -- serving by the new model in any registry whose versions are the swapped
  -- map, and any heap whose entry for n1 is the readied data
  have serveNew : ∀ (hh : Heap) (r' : SReg), r'.versions = dSet r.versions v n1 →
      hGet? hh n1 = hGet? h2 n1 →
      ∃ m, (sget_model hh r' (some v)).1 = .ok m ∧
        (hGetD hh m).name = n ∧ (hGetD hh m).ready = true := by
    intro hh r' hr' he
    have hd : hGetD hh n1 = { hGetD h1 n1 with ready := true } := by
      rw [hGetD_congr _ _ _ he, h2def]
    refine served_of hh r' n1 n v hv ?_ ?_ ?_
    · rw [hr']
      exact dGet?_dSet_self _ v n1
    · rw [hd]
      simp only
      exact hname
    · rw [hd]
  have hmemTr : ∀ q ∈ (h, r) :: tr.map (fun hh => (hh, r)),
      ∃ m, (sget_model q.1 q.2 (some v)).1 = .ok m ∧
        (hGetD q.1 m).name = n ∧ (hGetD q.1 m).ready = true := by
    intro q hq
    rcases List.mem_cons.mp hq with he | he
    · rw [he]
      exact serveOld h rfl
    · obtain ⟨hh, hmem, heq⟩ := List.mem_map.mp he
      rw [← heq]
      refine serveOld hh (hTpres.1 hh ?_)
      rw [hTsnd]
      exact hmem
  have servNew2 : ∃ m, (sget_model h2 r1 (some v)).1 = .ok m ∧
      (hGetD h2 m).name = n ∧ (hGetD h2 m).ready = true :=
    serveNew h2 r1 hr1v rfl
  have servNew3 : ∃ m, (sget_model h2 r3 (some v)).1 = .ok m ∧
      (hGetD h2 m).name = n ∧ (hGetD h2 m).ready = true :=
    serveNew h2 r3 hr3v rfl
  have h1pres : hGet? h1 old = hGet? h old := by
    have hx := hTpres.2
    rw [hTfst] at hx
    exact hx
  have servNewR : ∃ m, (sget_model h2 r (some v)).1 = .ok m ∧
      (hGetD h2 m).name = n ∧ (hGetD h2 m).ready = true := by
    refine serveOld h2 ?_
    rw [hh2]
    exact (hGet?_hSet_ne h1 n1 old _ (fun he => hne he.symm)).trans h1pres
  cases hu : beh.unloadFn old with
  | error e =>
    have htrace : (reload_model_t beh h r old newId).2 =
        ((h, r) :: tr.map (fun hh => (hh, r))) ++
          [(h2, r), (h2, r1), (h2, r3)] := by
      unfold reload_model_t
      simp only [hT2, hlf, hu, eq_self_iff_true, if_true]
    intro p hp
    rw [htrace] at hp
    rcases List.mem_append.mp hp with hmem | hmem
    · exact hmemTr p hmem
    · simp only [List.mem_cons, List.not_mem_nil, or_false] at hmem
      rcases hmem with he | he | he
      · rw [he]
        exact servNewR
      · rw [he]
        exact servNew2
      · rw [he]
        exact servNew3
  | ok ub =>
    have htrace : (reload_model_t beh h r old newId).2 =
        ((h, r) :: tr.map (fun hh => (hh, r))) ++
          [(h2, r), (h2, r1), (h2, r3),
            (hSet h2 old { hGetD h2 old with ready := !ub }, r3)] := by
      unfold reload_model_t
      simp only [hT2, hlf, hu, eq_self_iff_true, if_true]
    intro p hp
    rw [htrace] at hp
    rcases List.mem_append.mp hp with hmem | hmem
    · exact hmemTr p hmem
    · have hn1h3 : hGet? (hSet h2 old { hGetD h2 old with ready := !ub }) n1 = hGet? h2 n1 :=
        hGet?_hSet_ne h2 old n1 _ hne
      simp only [List.mem_cons, List.not_mem_nil, or_false] at hmem
      rcases hmem with he | he | he | he
      · rw [he]
        exact servNewR
      · rw [he]
        exact servNew2
      · rw [he]
        exact servNew3
      · rw [he]
        exact serveNew _ r3 hr3v hn1h3

/-- C6 witness: a concrete hook-free reload of version "1" with the old model
ready — every state in the trace serves the version ready. -/
theorem c6_rolling_reload_witness :
    ∃ m, (sget_model [(0, (⟨"m", some "1", false⟩ : MData)), (1, ⟨"m", some "1", true⟩)]
        (⟨"m", [("1", 1)], some 1⟩ : SReg) (some "1")).1 = .ok m ∧
      (hGetD [(0, (⟨"m", some "1", false⟩ : MData)), (1, ⟨"m", some "1", true⟩)] m).name
          = "m" ∧
      (hGetD [(0, (⟨"m", some "1", false⟩ : MData)), (1, ⟨"m", some "1", true⟩)] m).ready
          = true :=
  c6_rolling_reload behOk [(0, ⟨"m", some "1", true⟩), (1, ⟨"m", some "1", false⟩)]
    ⟨"m", [("1", 0)], some 0⟩ 0 1 "m" "1" 1 _
    (by decide) rfl rfl (by intro cb hcb; simp [behOk] at hcb) rfl (by decide) rfl rfl rfl
    ([(0, ⟨"m", some "1", false⟩), (1, ⟨"m", some "1", true⟩)], ⟨"m", [("1", 1)], some 1⟩)
    (by decide)

/- ------------------------------------------------------------------ -/
/- Claim C9: first-load rollback.                                     -/
/- ------------------------------------------------------------------ -/

/-- C9 counterexample: two on-load hooks, the first returning a replacement
(address 100) and the second raising.  The rollback removes the version entry
(so `getModel("1")` fails), but the default pointer still references the
original model (address 0), which carries version "1" — an entry for that
version remains in the default pointer. -/
theorem c9_counterexample :
    (sload behReplRaise [] ⟨"m", [], none⟩ ⟨"m", some ⟨some "1"⟩⟩ 0).1 =
      .error .hookError ∧
    (sload behReplRaise [] ⟨"m", [], none⟩ ⟨"m", some ⟨some "1"⟩⟩ 0).2.2.versions = [] ∧
    (sload behReplRaise [] ⟨"m", [], none⟩ ⟨"m", some ⟨some "1"⟩⟩ 0).2.2.dflt = some 0 ∧
    (hGetD (sload behReplRaise [] ⟨"m", [], none⟩ ⟨"m", some ⟨some "1"⟩⟩ 0).2.1 0).version
      = some "1" := by
  exact ⟨rfl, rfl, rfl, rfl⟩

theorem runLoadHooks_id (hooks : List LoadHook) :
    (∀ hk ∈ hooks, ∀ (h' : Heap) (m' : Nat) (p : Nat × Heap), hk h' m' = .ok p →
      p.1 = m' ∧ (hGetD p.2 m').version = (hGetD h' m').version) →
    ∀ (h : Heap) (m : Nat),
      (runLoadHooks hooks h m).2.1 = m ∧
      (hGetD (runLoadHooks hooks h m).2.2 m).version = (hGetD h m).version := by
  induction hooks with
  | nil =>
    intro _ h m
    exact ⟨rfl, rfl⟩
  | cons hk rest ih =>
    intro hid h m
    cases hap : hk h m with
    | error e =>
      constructor
      · simp [runLoadHooks, hap]
      · simp [runLoadHooks, hap]
    | ok p =>
      obtain ⟨m2, h2⟩ := p
      have hp := hid hk (List.mem_cons_self _ _) h m (m2, h2) hap
      have hm2 : m2 = m := hp.1
      subst hm2
      have ihr := ih (fun k hk' => hid k (List.mem_cons_of_mem _ hk')) h2 m2
      constructor
      · simp only [runLoadHooks, hap]
        exact ihr.1
      · simp only [runLoadHooks, hap]
        rw [ihr.2, hp.2]

theorem load_model_hookfail (beh : Beh) (h : Heap) (r : SReg) (m m1 : Nat) (h1 : Heap)
    (hrun : runLoadHooks beh.onLoad h m = (false, m1, h1)) :
    load_model beh h r m =
      ((match (unload_model beh h1 (register h r m) m1).1 with
         | .ok _ => .error .hookError
         | .error e => .error e),
        (unload_model beh h1 (register h r m) m1).2.1,
        (unload_model beh h1 (register h r m) m1).2.2) := by
  unfold load_model
  rw [hrun]

theorem load_model_loadfail (beh : Beh) (h : Heap) (r : SReg) (m m1 : Nat) (h1 : Heap)
    (hrun : runLoadHooks beh.onLoad h m = (true, m1, h1))
    (hlf : beh.loadFn m1 = .error ()) :
    load_model beh h r m =
      ((match (unload_model beh h1 (register h1 (register h r m) m1) m1).1 with
         | .ok _ => .error .hookError
         | .error e => .error e),
        (unload_model beh h1 (register h1 (register h r m) m1) m1).2.1,
        (unload_model beh h1 (register h1 (register h r m) m1) m1).2.2) := by
  unfold load_model
  simp only [hrun]
  simp only [hlf]

/-- Cleanup of a freshly-registered model whose version key was previously
absent: the version map is restored and the default pointer is cleared
exactly when it had adopted the new model. -/
theorem unload_cleanup (beh : Beh) (hh : Heap) (r R : SReg) (newId : Nat) (v : String)
    (dd : Nat)
    (hvne : v ≠ "") (hver : (hGetD hh newId).version = some v)
    (hRv : R.versions = dSet r.versions v newId)
    (habs : dGet? r.versions v = none)
    (hRd : R.dflt = some dd) :
    ((unload_model beh hh R newId).1 = .ok () ∨
      (unload_model beh hh R newId).1 = .error .hookError) ∧
    (unload_model beh hh R newId).2.2.versions = r.versions ∧
    (unload_model beh hh R newId).2.2.dflt = (if dd = newId then none else some dd) ∧
    (unload_model beh hh R newId).2.2.name = R.name := by
  have htr : truthyS (hGetD hh newId).version = true := by
    rw [hver]
    simp [truthyS, hvne]
  have hget : dGet? R.versions (((hGetD hh newId).version).getD "") = some newId := by
    rw [hver, hRv]
    exact dGet?_dSet_self _ v newId
  have hdel : dDel R.versions (((hGetD hh newId).version).getD "") = r.versions := by
    rw [hver, hRv]
    exact dDel_dSet_absent _ v newId habs
  have hr1d : ({ R with versions := dDel R.versions (((hGetD hh newId).version).getD "") } : SReg).dflt = some dd := hRd
  unfold unload_model
  rw [if_pos htr, hget]
  simp only
  rw [default_prop_of_some hh _ dd hr1d]
  simp only
  by_cases hddn : dd = newId
  · rw [if_pos (by rw [hddn]), if_pos hddn]
    cases hu : beh.unloadFn newId with
    | error e => exact ⟨Or.inr rfl, by simp [hdel], rfl, rfl⟩
    | ok b => exact ⟨Or.inl rfl, by simp [hdel], rfl, rfl⟩
  · rw [if_neg (by simp [hddn]), if_neg hddn]
    cases hu : beh.unloadFn newId with
    | error e => exact ⟨Or.inr rfl, by simp [hdel], hRd, rfl⟩
    | ok b => exact ⟨Or.inl rfl, by simp [hdel], hRd, rfl⟩

/-- Cleanup wrapper: the error surfaced by the rollback is always hookError,
the versions map is restored, and the default pointer is either the pre-load
one or cleared. -/
theorem cleanup_wrap (beh : Beh) (hh : Heap) (r R : SReg) (newId : Nat) (v : String)
    (hvne : v ≠ "") (hver : (hGetD hh newId).version = some v)
    (hRv : R.versions = dSet r.versions v newId)
    (habs : dGet? r.versions v = none)
    (hRn : R.name = r.name)
    (hRd : R.dflt = some newId ∨ (R.dflt = r.dflt ∧ ∃ d, r.dflt = some d))
    (_hdfl : r.dflt ≠ some newId) :
    (match (unload_model beh hh R newId).1 with
      | .ok _ => (.error .hookError : Except PErr Unit)
      | .error e => .error e) = .error .hookError ∧
    (unload_model beh hh R newId).2.2.versions = r.versions ∧
    ((unload_model beh hh R newId).2.2.dflt = r.dflt ∨
      (unload_model beh hh R newId).2.2.dflt = none) ∧
    (unload_model beh hh R newId).2.2.name = r.name := by
  obtain ⟨dd, hddq, hddc⟩ : ∃ dd, R.dflt = some dd ∧ (dd = newId ∨ r.dflt = some dd) := by
    rcases hRd with hc | ⟨hc, d, hd⟩
    · exact ⟨newId, hc, Or.inl rfl⟩
    · exact ⟨d, by rw [hc, hd], Or.inr hd⟩
  have hclean := unload_cleanup beh hh r R newId v dd hvne hver hRv habs hddq
  refine ⟨?_, hclean.2.1, ?_, by rw [hclean.2.2.2, hRn]⟩
  · rcases hclean.1 with hc | hc
    · rw [hc]
    · rw [hc]
  · by_cases hdn : dd = newId
    · rw [hclean.2.2.1, if_pos hdn]
      exact Or.inr rfl
    · rw [hclean.2.2.1, if_neg hdn]
      rcases hddc with hc | hc
      · exact absurd hc hdn
      · exact Or.inl hc.symm

/-- C9 (amended): when a first-load fails — the initialiser, a load hook, or
the Model's own load raising — the error propagates and the version entry is
rolled back, so `getModel(version)` fails with ModelNotFound afterwards and
the versions map is exactly its pre-load value; the default pointer is also
restored (or cleared, when it had adopted the new model) PROVIDED the load
hooks return the model object they were given; a hook that replaces the
object before a later failure can leave the default pointer referencing the
original model (see the counterexample). -/
theorem c9_firstload_rollback_amended :
    ∀ (beh : Beh) (h : Heap) (r : SReg) (ms : ModelSettings) (newId : Nat)
      (v : String),
      get_version ms = some v → v ≠ "" →
      dGet? r.versions v = none →
      r.dflt ≠ some newId →
      (∀ hk ∈ beh.onLoad, ∀ (h' : Heap) (m' : Nat) (p : Nat × Heap), hk h' m' = .ok p →
        p.1 = m' ∧ (hGetD p.2 m').version = (hGetD h' m').version) →
      ((beh.initRaises = true) ∨
        (runLoadHooks beh.onLoad (hSet h newId ⟨ms.name, some v, false⟩) newId).1 = false ∨
        ((runLoadHooks beh.onLoad (hSet h newId ⟨ms.name, some v, false⟩) newId).1 = true ∧
          beh.loadFn (runLoadHooks beh.onLoad
            (hSet h newId ⟨ms.name, some v, false⟩) newId).2.1 = .error ())) →
      (sload beh h r ms newId).1 = .error .hookError ∧
      (sload beh h r ms newId).2.2.versions = r.versions ∧
      ((sload beh h r ms newId).2.2.dflt = r.dflt ∨
        (sload beh h r ms newId).2.2.dflt = none) ∧
      (sget_model (sload beh h r ms newId).2.1 (sload beh h r ms newId).2.2
          (some v)).1 = .error (.modelNotFound r.name (some v)) := by
  intro beh h r ms newId v hv hvne habs hdfl hid hfail
  have htrv : truthyS (some v) = true := by simp [truthyS, hvne]
  have hgmfail : ∀ (hh : Heap) (r' : SReg), r'.versions = r.versions → r'.name = r.name →
      (sget_model hh r' (some v)).1 = .error (.modelNotFound r.name (some v)) := by
    intro hh r' hrv hrn
    unfold sget_model find_model
    rw [← hrn]
    simp [htrv, hrv, habs]
  cases hinit : beh.initRaises with
  | true =>
    -- the initialiser raises before any registration
    have hsl : sload beh h r ms newId = (.error .hookError, h, r) := by
      unfold sload find_model
      rw [hv]
      simp [htrv, habs, hinit]
    rw [hsl]
    exact ⟨rfl, rfl, Or.inl rfl, hgmfail h r rfl rfl⟩
  | false =>
    -- the load path runs
    rcases hfail with hf | hfail
    · rw [hinit] at hf
      exact absurd hf Bool.false_ne_true
    have hsl := sload_firstload beh h r ms newId v hv hvne habs hinit
    set h1 := hSet h newId (⟨ms.name, some v, false⟩ : MData) with hh1
    have hverNew : (hGetD h1 newId).version = some v := by
      rw [hh1, hGetD_hSet_self]
    have hchain := runLoadHooks_id beh.onLoad hid h1 newId
    have hverChain : (hGetD (runLoadHooks beh.onLoad h1 newId).2.2 newId).version = some v := by
      rw [hchain.2, hverNew]
    -- facts about the single-register state
    have hR1v : (register h1 r newId).versions = dSet r.versions v newId := by
      rw [register_versions_truthy h1 r newId (by rw [hverNew]; exact htrv), hverNew]
      rfl
    have hR1name : (register h1 r newId).name = r.name := register_name h1 r newId
    have hR1d : (register h1 r newId).dflt = some newId ∨
        ((register h1 r newId).dflt = r.dflt ∧ ∃ d, r.dflt = some d) :=
      register_dflt_cases h1 r newId
    rcases hfail with hA | ⟨hB1, hB2⟩
    · -- a load hook raises
      have hrunFull : runLoadHooks beh.onLoad h1 newId =
          (false, newId, (runLoadHooks beh.onLoad h1 newId).2.2) := by
        have hx : runLoadHooks beh.onLoad h1 newId =
            ((runLoadHooks beh.onLoad h1 newId).1,
              (runLoadHooks beh.onLoad h1 newId).2.1,
              (runLoadHooks beh.onLoad h1 newId).2.2) := rfl
        rw [hx, hA, hchain.1]
      have hlm := load_model_hookfail beh h1 r newId newId
        (runLoadHooks beh.onLoad h1 newId).2.2 hrunFull
      have hcw := cleanup_wrap beh (runLoadHooks beh.onLoad h1 newId).2.2 r
        (register h1 r newId) newId v hvne hverChain hR1v habs hR1name hR1d hdfl
      rw [hsl, hlm]
      refine ⟨?_, hcw.2.1, hcw.2.2.1, ?_⟩
      · simp only
        rw [hcw.1]
        rfl
      · simp only
        exact hgmfail _ _ hcw.2.1 hcw.2.2.2
    · -- the Model's own load raises
      have hrunFull : runLoadHooks beh.onLoad h1 newId =
          (true, newId, (runLoadHooks beh.onLoad h1 newId).2.2) := by
        have hx : runLoadHooks beh.onLoad h1 newId =
            ((runLoadHooks beh.onLoad h1 newId).1,
              (runLoadHooks beh.onLoad h1 newId).2.1,
              (runLoadHooks beh.onLoad h1 newId).2.2) := rfl
        rw [hx, hB1, hchain.1]
      have hlfn : beh.loadFn newId = .error () := by
        rw [← hchain.1]
        exact hB2
      have hlm := load_model_loadfail beh h1 r newId newId
        (runLoadHooks beh.onLoad h1 newId).2.2 hrunFull hlfn
      -- facts about the doubly-registered state
      have hR2v : (register (runLoadHooks beh.onLoad h1 newId).2.2
          (register h1 r newId) newId).versions = dSet r.versions v newId := by
        rw [register_versions_truthy _ _ newId (by rw [hverChain]; exact htrv), hverChain,
          hR1v]
        exact dSet_dSet_absent _ v newId newId habs
      have hR2name' : (register (runLoadHooks beh.onLoad h1 newId).2.2
          (register h1 r newId) newId).name = r.name := by
        rw [register_name, hR1name]
      have hR2d : (register (runLoadHooks beh.onLoad h1 newId).2.2
          (register h1 r newId) newId).dflt = some newId ∨
          ((register (runLoadHooks beh.onLoad h1 newId).2.2
            (register h1 r newId) newId).dflt = r.dflt ∧ ∃ d, r.dflt = some d) := by
        rcases register_dflt_cases (runLoadHooks beh.onLoad h1 newId).2.2
            (register h1 r newId) newId with hc | ⟨hc1, d1, hc2⟩
        · exact Or.inl hc
        · rcases hR1d with hq | ⟨hq1, d2, hq2⟩
          · rw [hq] at hc1
            exact Or.inl hc1
          · exact Or.inr ⟨by rw [hc1, hq1], d2, hq2⟩
      have hcw := cleanup_wrap beh (runLoadHooks beh.onLoad h1 newId).2.2 r
        (register (runLoadHooks beh.onLoad h1 newId).2.2 (register h1 r newId) newId)
        newId v hvne hverChain hR2v habs hR2name' hR2d hdfl
      rw [hsl, hlm]
      refine ⟨?_, hcw.2.1, hcw.2.2.1, ?_⟩
      · simp only
        rw [hcw.1]
        rfl
      · simp only
        exact hgmfail _ _ hcw.2.1 hcw.2.2.2

/-- C9 witness: a hook-free first load whose Model load step raises rolls the
empty registry back completely. -/
theorem c9_firstload_rollback_witness :
    (sload behBadLoad [] ⟨"m", [], none⟩ ⟨"m", some ⟨some "1"⟩⟩ 0).1 =
      .error .hookError ∧
    (sload behBadLoad [] ⟨"m", [], none⟩ ⟨"m", some ⟨some "1"⟩⟩ 0).2.2.versions = [] ∧
    ((sload behBadLoad [] ⟨"m", [], none⟩ ⟨"m", some ⟨some "1"⟩⟩ 0).2.2.dflt = none ∨
      (sload behBadLoad [] ⟨"m", [], none⟩ ⟨"m", some ⟨some "1"⟩⟩ 0).2.2.dflt = none) ∧
    (sget_model (sload behBadLoad [] ⟨"m", [], none⟩ ⟨"m", some ⟨some "1"⟩⟩ 0).2.1
        (sload behBadLoad [] ⟨"m", [], none⟩ ⟨"m", some ⟨some "1"⟩⟩ 0).2.2
        (some "1")).1 = .error (.modelNotFound "m" (some "1")) :=
  c9_firstload_rollback_amended behBadLoad [] ⟨"m", [], none⟩ ⟨"m", some ⟨some "1"⟩⟩ 0 "1"
    rfl (by decide) rfl (by simp) (by intro hk hhk; simp [behBadLoad, behOk] at hhk)
    (Or.inr (Or.inr ⟨rfl, rfl⟩))

/- ------------------------------------------------------------------ -/
/- Claim C1: bulk unload.                                             -/
/- ------------------------------------------------------------------ -/

theorem truthyS_some {ov : Option String} (ht : truthyS ov = true) :
    ∃ k, ov = some k ∧ k ≠ "" := by
  rcases ov with _ | k
  · simp [truthyS] at ht
  · exact ⟨k, rfl, by simpa [truthyS] using ht⟩

theorem truthyS_of {k : String} (hk : k ≠ "") : truthyS (some k) = true := by
  simp [truthyS, hk]

theorem mem_dDel_key_ne {α : Type} {l : List (String × α)} {k : String}
    {p : String × α} (hn : nodupKeys l = true) (h : p ∈ dDel l k) : p.1 ≠ k := by
  intro hpk
  have hmem : p ∈ dDel l k := h
  have hget := dGet?_isSome_of_mem hmem
  rw [hpk, dGet?_dDel_self l k hn] at hget
  simp at hget

theorem unload_model_truthy_eq (beh : Beh) (h : Heap) (r : SReg) (m : Nat) (k : String)
    (hk : (hGetD h m).version = some k) (hkne : k ≠ "")
    (hget : dGet? r.versions k = some m) :
    unload_model beh h r m =
      (match beh.unloadFn m with
        | .error _ =>
          (.error .hookError, h,
            (if (default_prop h { r with versions := dDel r.versions k }).1 = some m then
              { (default_prop h { r with versions := dDel r.versions k }).2 with dflt := none }
            else (default_prop h { r with versions := dDel r.versions k }).2))
        | .ok b =>
          (.ok (), hSet h m { hGetD h m with ready := !b },
            (if (default_prop h { r with versions := dDel r.versions k }).1 = some m then
              { (default_prop h { r with versions := dDel r.versions k }).2 with dflt := none }
            else (default_prop h { r with versions := dDel r.versions k }).2))) := by
  unfold unload_model
  rw [if_pos (by rw [hk]; exact truthyS_of hkne)]
  rw [show ((hGetD h m).version).getD "" = k by rw [hk]; rfl]
  rw [hget]

theorem unload_model_falsy_eq (beh : Beh) (h : Heap) (r : SReg) (m : Nat)
    (hf : truthyS (hGetD h m).version = false) :
    unload_model beh h r m =
      (match beh.unloadFn m with
        | .error _ =>
          (.error .hookError, h,
            (if (default_prop h r).1 = some m then
              { (default_prop h r).2 with dflt := none }
            else (default_prop h r).2))
        | .ok b =>
          (.ok (), hSet h m { hGetD h m with ready := !b },
            (if (default_prop h r).1 = some m then
              { (default_prop h r).2 with dflt := none }
            else (default_prop h r).2))) := by
  unfold unload_model
  rw [if_neg (by simp [hf])]

/-- Default invariant across the per-model clearing step: after removing the
processed model, the (possibly recomputed) default is cleared or points at a
still-unprocessed model. -/
theorem clear_step_default (h : Heap) (r1 : SReg) (m : Nat) (rest : List Nat)
    (hentries : ∀ p ∈ r1.versions, p.2 ∈ rest)
    (hdef : r1.dflt = none ∨ ∃ d, r1.dflt = some d ∧ d ∈ m :: rest)
    (hnm : m ∉ rest) :
    ((if (default_prop h r1).1 = some m then { (default_prop h r1).2 with dflt := none }
      else (default_prop h r1).2) : SReg).dflt = none ∨
    ∃ d, ((if (default_prop h r1).1 = some m then { (default_prop h r1).2 with dflt := none }
      else (default_prop h r1).2) : SReg).dflt = some d ∧ d ∈ rest := by
  rcases hdef with hc | ⟨d, hc, hdm⟩
  · -- the backing field is unset: the property recomputes from the remaining
    -- versions
    have hdp : default_prop h r1 = (find_default h r1, { r1 with dflt := find_default h r1 }) := by
      unfold default_prop
      rw [hc]
    rcases hfd : find_default h r1 with _ | x
    · rw [hdp, hfd]
      simp
    · have hxmem : x ∈ rest := by
        unfold find_default at hfd
        rw [hc] at hfd
        rcases hvals : dValues r1.versions with _ | ⟨v0, vs⟩
        · rw [hvals] at hfd
          simp at hfd
        · rw [hvals] at hfd
          simp only [Option.some.injEq] at hfd
          have hin : x ∈ v0 :: vs := by
            rw [← hfd]
            exact foldl_choice_mem _ vs v0
          rw [← hvals] at hin
          obtain ⟨p, hp, hpx⟩ := List.mem_map.mp hin
          rw [← hpx]
          exact hentries p hp
      have hxm : ¬ (some x = some m) := by
        simp only [Option.some.injEq]
        intro hxe
        exact hnm (hxe ▸ hxmem)
      rw [hdp, hfd]
      simp only [if_neg hxm]
      exact Or.inr ⟨x, rfl, hxmem⟩
  · rw [default_prop_of_some h r1 d hc]
    by_cases hdm' : d = m
    · rw [if_pos (by rw [hdm'])]
      simp
    · rw [if_neg (by simp [hdm'])]
      refine Or.inr ⟨d, hc, ?_⟩
      rcases List.mem_cons.mp hdm with he | he
      · exact absurd he hdm'
      · exact he

/-- One `_unload_model` step of the bulk unload preserves the processing
invariants: the remaining version entries all belong to the still-unprocessed
models, keys stay distinct and self-indexed, and the default is cleared or
points to an unprocessed model; the step returns normally whenever the
model's own unload coroutine does. -/
theorem unload_step (beh : Beh) (h : Heap) (r : SReg) (m : Nat) (rest : List Nat)
    (hver : ∀ p ∈ r.versions, p.2 ∈ m :: rest ∧ (hGetD h p.2).version = some p.1 ∧ p.1 ≠ "")
    (hkeys : nodupKeys r.versions = true)
    (hmem : ∀ m' ∈ m :: rest, ∀ k, (hGetD h m').version = some k → k ≠ "" →
      dGet? r.versions k = some m')
    (hdef : r.dflt = none ∨ ∃ d, r.dflt = some d ∧ d ∈ m :: rest)
    (hnm : m ∉ rest) :
    (∀ p ∈ (unload_model beh h r m).2.2.versions, p.2 ∈ rest ∧
      (hGetD (unload_model beh h r m).2.1 p.2).version = some p.1 ∧ p.1 ≠ "") ∧
    nodupKeys (unload_model beh h r m).2.2.versions = true ∧
    (∀ m' ∈ rest, ∀ k, (hGetD (unload_model beh h r m).2.1 m').version = some k → k ≠ "" →
      dGet? (unload_model beh h r m).2.2.versions k = some m') ∧
    ((unload_model beh h r m).2.2.dflt = none ∨
      ∃ d, (unload_model beh h r m).2.2.dflt = some d ∧ d ∈ rest) ∧
    (∀ b, beh.unloadFn m = .ok b → (unload_model beh h r m).1 = .ok ()) := by
  by_cases htm : truthyS (hGetD h m).version = true
  · obtain ⟨k, hk, hkne⟩ := truthyS_some htm
    have hget := hmem m (List.mem_cons_self _ _) k hk hkne
    have heq := unload_model_truthy_eq beh h r m k hk hkne hget
    have hentries : ∀ p ∈ dDel r.versions k, p.2 ∈ rest := by
      intro p hp
      have hpr := hver p (mem_dDel hp)
      have hne : p.2 ≠ m := by
        intro hpm
        have hx : (hGetD h p.2).version = some k := by rw [hpm, hk]
        have hy : p.1 = k := by
          have hz := hpr.2.1
          rw [hx] at hz
          exact Option.some.inj hz.symm
        exact (mem_dDel_key_ne hkeys hp) hy
      rcases List.mem_cons.mp hpr.1 with he | he
      · exact absurd he hne
      · exact he
    have hdefInv := clear_step_default h { r with versions := dDel r.versions k } m rest
      hentries (by
        rcases hdef with hc | ⟨d, hc, hdm⟩
        · exact Or.inl hc
        · exact Or.inr ⟨d, hc, hdm⟩) hnm
    have hmem' : ∀ m' ∈ rest, ∀ k', (hGetD h m').version = some k' → k' ≠ "" →
        dGet? (dDel r.versions k) k' = some m' := by
      intro m' hm' k' hk' hk'ne
      have hbase := hmem m' (List.mem_cons_of_mem _ hm') k' hk' hk'ne
      have hkk : k' ≠ k := by
        intro hkk
        rw [hkk, hget] at hbase
        have hmm : m = m' := by simpa using hbase
        exact hnm (by rw [hmm]; exact hm')
      rw [dGet?_dDel_ne r.versions k k' hkk]
      exact hbase
    have hkeys' := nodupKeys_dDel r.versions k hkeys
    have hvv : (if (default_prop h { r with versions := dDel r.versions k }).1 = some m then
        { (default_prop h { r with versions := dDel r.versions k }).2 with dflt := none }
      else (default_prop h { r with versions := dDel r.versions k }).2).versions =
        dDel r.versions k := by
      split
      · simpa using default_prop_versions h { r with versions := dDel r.versions k }
      · exact default_prop_versions h { r with versions := dDel r.versions k }
    cases hu : beh.unloadFn m with
    | error e =>
      rw [heq]
      simp only [hu]
      refine ⟨?_, ?_, ?_, hdefInv, ?_⟩
      · intro p hp
        rw [hvv] at hp
        exact ⟨hentries p hp, (hver p (mem_dDel hp)).2.1, (hver p (mem_dDel hp)).2.2⟩
      · rw [hvv]
        exact hkeys'
      · intro m' hm' k' hk' hk'ne
        rw [hvv]
        exact hmem' m' hm' k' hk' hk'ne
      · intro b' hb'
        exact Except.noConfusion hb'
    | ok b =>
      rw [heq]
      simp only [hu]
      have hhver : ∀ i, (hGetD (hSet h m { hGetD h m with ready := !b }) i).version =
          (hGetD h i).version := fun i => version_hSet_ready h m i (!b)
      refine ⟨?_, ?_, ?_, hdefInv, ?_⟩
      · intro p hp
        rw [hvv] at hp
        exact ⟨hentries p hp, by rw [hhver p.2]; exact (hver p (mem_dDel hp)).2.1,
          (hver p (mem_dDel hp)).2.2⟩
      · rw [hvv]
        exact hkeys'
      · intro m' hm' k' hk' hk'ne
        rw [hvv]
        rw [hhver m'] at hk'
        exact hmem' m' hm' k' hk' hk'ne
      · intro b' hb'
        trivial
  · have htm' : truthyS (hGetD h m).version = false := by
      cases hb : truthyS (hGetD h m).version
      · rfl
      · exact absurd hb htm
    have heq := unload_model_falsy_eq beh h r m htm'
    have hentries : ∀ p ∈ r.versions, p.2 ∈ rest := by
      intro p hp
      have hpr := hver p hp
      have hne : p.2 ≠ m := by
        intro hpm
        rw [hpm] at hpr
        rw [hpr.2.1] at htm'
        have hq := truthyS_of hpr.2.2
        rw [hq] at htm'
        exact Bool.noConfusion htm'
      rcases List.mem_cons.mp hpr.1 with he | he
      · exact absurd he hne
      · exact he
    have hdefInv := clear_step_default h r m rest hentries hdef hnm
    have hvv : (if (default_prop h r).1 = some m then
        { (default_prop h r).2 with dflt := none }
      else (default_prop h r).2).versions = r.versions := by
      split
      · simpa using default_prop_versions h r
      · exact default_prop_versions h r
    cases hu : beh.unloadFn m with
    | error e =>
      rw [heq]
      simp only [hu]
      refine ⟨?_, ?_, ?_, hdefInv, ?_⟩
      · intro p hp
        rw [hvv] at hp
        exact ⟨hentries p hp, (hver p hp).2.1, (hver p hp).2.2⟩
      · rw [hvv]
        exact hkeys
      · intro m' hm' k' hk' hk'ne
        rw [hvv]
        exact hmem m' (List.mem_cons_of_mem _ hm') k' hk' hk'ne
      · intro b' hb'
        exact Except.noConfusion hb'
    | ok b =>
      rw [heq]
      simp only [hu]
      have hhver : ∀ i, (hGetD (hSet h m { hGetD h m with ready := !b }) i).version =
          (hGetD h i).version := fun i => version_hSet_ready h m i (!b)
      refine ⟨?_, ?_, ?_, hdefInv, ?_⟩
      · intro p hp
        rw [hvv] at hp
        exact ⟨hentries p hp, by rw [hhver p.2]; exact (hver p hp).2.1, (hver p hp).2.2⟩
      · rw [hvv]
        exact hkeys
      · intro m' hm' k' hk' hk'ne
        rw [hvv]
        rw [hhver m'] at hk'
        exact hmem m' (List.mem_cons_of_mem _ hm') k' hk' hk'ne
      · intro b' hb'
        trivial

/-- The gather over a snapshot empties the version map and clears the
default, whatever the individual unload outcomes; and it returns normally
when every model's own unload coroutine does. -/
theorem gather_clears (beh : Beh) :
    ∀ (ms : List Nat) (h : Heap) (r : SReg),
      ms.Nodup →
      (∀ p ∈ r.versions, p.2 ∈ ms ∧ (hGetD h p.2).version = some p.1 ∧ p.1 ≠ "") →
      nodupKeys r.versions = true →
      (∀ m ∈ ms, ∀ k, (hGetD h m).version = some k → k ≠ "" →
        dGet? r.versions k = some m) →
      (r.dflt = none ∨ ∃ d, r.dflt = some d ∧ d ∈ ms) →
      ((gatherUnload beh h r ms).2.2.versions = [] ∧
        (gatherUnload beh h r ms).2.2.dflt = none) ∧
      ((∀ m ∈ ms, ∃ b, beh.unloadFn m = .ok b) → (gatherUnload beh h r ms).1 = .ok ()) := by
  intro ms
  induction ms with
  | nil =>
    intro h r _ hver _ _ hdef
    refine ⟨⟨?_, ?_⟩, fun _ => rfl⟩
    · cases hv : r.versions with
      | nil => exact hv
      | cons p rest' =>
        exact absurd (hver p (by rw [hv]; exact List.mem_cons_self p rest')).1
          (List.not_mem_nil _)
    · rcases hdef with hc | ⟨d, hc, hdm⟩
      · exact hc
      · exact absurd hdm (List.not_mem_nil d)
  | cons m rest ih =>
    intro h r hnd hver hkeys hmem hdef
    have hnm : m ∉ rest := (List.nodup_cons.mp hnd).1
    have hstep := unload_step beh h r m rest hver hkeys hmem hdef hnm
    have ihr := ih (unload_model beh h r m).2.1 (unload_model beh h r m).2.2
      (List.nodup_cons.mp hnd).2 hstep.1 hstep.2.1 hstep.2.2.1 hstep.2.2.2.1
    refine ⟨ihr.1, ?_⟩
    intro hall
    have hok1 : (unload_model beh h r m).1 = .ok () := by
      obtain ⟨b, hb⟩ := hall m (List.mem_cons_self _ _)
      exact hstep.2.2.2.2 b hb
    have hokR : (gatherUnload beh (unload_model beh h r m).2.1
        (unload_model beh h r m).2.2 rest).1 = .ok () :=
      ihr.2 (fun m' hm' => hall m' (List.mem_cons_of_mem _ hm'))
    have hshape : (gatherUnload beh h r (m :: rest)).1 =
        (match (unload_model beh h r m).1 with
          | .error e => (.error e : Except PErr Unit)
          | .ok _ => (gatherUnload beh (unload_model beh h r m).2.1
              (unload_model beh h r m).2.2 rest).1) := rfl
    rw [hshape, hok1, hokR]

theorem values_nodup (h : Heap) (l : List (String × Nat))
    (hn : nodupKeys l = true)
    (hver : ∀ p ∈ l, (hGetD h p.2).version = some p.1 ∧ p.1 ≠ "") :
    (dValues l).Nodup := by
  induction l with
  | nil => simp [dValues]
  | cons q rest ih =>
    simp only [nodupKeys, Bool.and_eq_true] at hn
    refine List.nodup_cons.mpr ⟨?_, ih hn.2 (fun p hp => hver p (List.mem_cons_of_mem _ hp))⟩
    intro hx
    obtain ⟨p, hp, hpx⟩ := List.mem_map.mp hx
    have h1 := (hver q (List.mem_cons_self _ _)).1
    have h2 := (hver p (List.mem_cons_of_mem _ hp)).1
    rw [hpx] at h2
    rw [h1] at h2
    have hk : p.1 = q.1 := (Option.some.inj h2).symm
    have hs := dGet?_isSome_of_mem hp
    rw [hk] at hs
    rw [Option.isNone_iff_eq_none] at hn
    rw [hn.1] at hs
    simp at hs

/-- Establishes the bulk-unload processing invariants for the snapshot taken
by `get_models` from a well-formed registry. -/
theorem snapshot_invariants (h : Heap) (r : SReg) (hwf : wfReg h r) :
    (sget_models h r).1.Nodup ∧
    (∀ p ∈ (sget_models h r).2.versions, p.2 ∈ (sget_models h r).1 ∧
      (hGetD h p.2).version = some p.1 ∧ p.1 ≠ "") ∧
    nodupKeys (sget_models h r).2.versions = true ∧
    (∀ m ∈ (sget_models h r).1, ∀ k, (hGetD h m).version = some k → k ≠ "" →
      dGet? (sget_models h r).2.versions k = some m) ∧
    ((sget_models h r).2.dflt = none ∨
      ∃ d, (sget_models h r).2.dflt = some d ∧ d ∈ (sget_models h r).1) := by
  obtain ⟨hkeys, hver, hdefwf⟩ := hwf
  have hvnd : (dValues r.versions).Nodup := values_nodup h r.versions hkeys hver
  have hmemval : ∀ m, m ∈ dValues r.versions ↔ ∃ p ∈ r.versions, p.2 = m := by
    intro m
    simp [dValues, List.mem_map]
  have hbase_mem : ∀ m ∈ dValues r.versions, ∀ k, (hGetD h m).version = some k → k ≠ "" →
      dGet? r.versions k = some m := by
    intro m hm k hk hkne
    obtain ⟨p, hp, hpm⟩ := (hmemval m).mp hm
    have h1 := (hver p hp).1
    rw [hpm, hk] at h1
    have hkk : p.1 = k := (Option.some.inj h1).symm
    have : (p.1, p.2) ∈ r.versions := hp
    rw [hkk, hpm] at this
    exact dGet?_of_mem_nodup hkeys this
  rcases hd : r.dflt with _ | d0
  · -- no backing default: the snapshot is the version values and the
    -- property recomputes from them
    have hdp : default_prop h r = (find_default h r, { r with dflt := find_default h r }) := by
      unfold default_prop
      rw [hd]
    rcases hfd : find_default h r with _ | x
    · have hsm : sget_models h r = (dValues r.versions, { r with dflt := none }) := by
        unfold sget_models
        rw [hdp, hfd]
      rw [hsm]
      exact ⟨hvnd, fun p hp => ⟨(hmemval p.2).mpr ⟨p, hp, rfl⟩, (hver p hp).1, (hver p hp).2⟩,
        hkeys, fun m hm k hk hkne => hbase_mem m hm k hk hkne, Or.inl rfl⟩
    · -- the recomputed default is one of the version values, hence versioned
      have hxval : x ∈ dValues r.versions := by
        unfold find_default at hfd
        rw [hd] at hfd
        rcases hvals : dValues r.versions with _ | ⟨v0, vs⟩
        · rw [hvals] at hfd
          simp at hfd
        · rw [hvals] at hfd
          simp only [Option.some.injEq] at hfd
          rw [← hfd]
          exact foldl_choice_mem _ vs v0

      have hxver : ∃ k, (hGetD h x).version = some k ∧ k ≠ "" := by
        obtain ⟨p, hp, hpx⟩ := (hmemval x).mp hxval
        exact ⟨p.1, by rw [← hpx]; exact (hver p hp).1, (hver p hp).2⟩
      obtain ⟨k, hk, hkne⟩ := hxver
      have htx : truthyS (hGetD h x).version = true := by
        rw [hk]
        exact truthyS_of hkne
      have hsm : sget_models h r = (dValues r.versions, { r with dflt := some x }) := by
        unfold sget_models
        rw [hdp, hfd]
        simp [htx]
      rw [hsm]
      exact ⟨hvnd, fun p hp => ⟨(hmemval p.2).mpr ⟨p, hp, rfl⟩, (hver p hp).1, (hver p hp).2⟩,
        hkeys, fun m hm k' hk' hkne' => hbase_mem m hm k' hk' hkne',
        Or.inr ⟨x, rfl, hxval⟩⟩
  · -- a backing default exists
    have hdp := default_prop_of_some h r d0 hd
    rcases hdefwf d0 hd with hnone | ⟨k, hk, hkne, hreg⟩
    · -- version-less default: appended to the snapshot
      have htx : truthyS (hGetD h d0).version = false := by
        rw [hnone]
        rfl
      have hsm : sget_models h r = (dValues r.versions ++ [d0], r) := by
        unfold sget_models
        rw [hdp]
        simp [htx]
      rw [hsm]
      refine ⟨?_, ?_, hkeys, ?_, Or.inr ⟨d0, hd, by simp⟩⟩
      · refine List.Nodup.append hvnd (List.nodup_singleton d0) ?_
        intro a ha hb
        rw [List.mem_singleton] at hb
        obtain ⟨p, hp, hpa⟩ := (hmemval a).mp ha
        have h1 := (hver p hp).1
        rw [hpa, hb, hnone] at h1
        exact Option.noConfusion h1
      · intro p hp
        exact ⟨List.mem_append_left _ ((hmemval p.2).mpr ⟨p, hp, rfl⟩),
          (hver p hp).1, (hver p hp).2⟩
      · intro m hm k' hk' hkne'
        rcases List.mem_append.mp hm with hm' | hm'
        · exact hbase_mem m hm' k' hk' hkne'
        · rw [List.mem_singleton] at hm'
          rw [hm', hnone] at hk'
          exact Option.noConfusion hk'
    · -- versioned default: already among the version values
      have htx : truthyS (hGetD h d0).version = true := by
        rw [hk]
        exact truthyS_of hkne
      have hsm : sget_models h r = (dValues r.versions, r) := by
        unfold sget_models
        rw [hdp]
        simp [htx]
      rw [hsm]
      exact ⟨hvnd, fun p hp => ⟨(hmemval p.2).mpr ⟨p, hp, rfl⟩, (hver p hp).1, (hver p hp).2⟩,
        hkeys, fun m hm k' hk' hkne' => hbase_mem m hm k' hk' hkne',
        Or.inr ⟨d0, hd, (hmemval d0).mpr ⟨(k, d0), mem_of_dGet? hreg, rfl⟩⟩⟩

theorem gatherUnload_hooks (beh : Beh) (hooks : List (Nat → Except Unit Unit)) :
    ∀ (ms : List Nat) (h : Heap) (r : SReg),
      gatherUnload { beh with onUnload := hooks } h r ms = gatherUnload beh h r ms := by
  intro ms
  induction ms with
  | nil => intro h r; rfl
  | cons m rest ih =>
    intro h r
    have hshape1 : gatherUnload { beh with onUnload := hooks } h r (m :: rest) =
        ((match (unload_model beh h r m).1 with
           | .error e => (.error e : Except PErr Unit)
           | .ok _ => (gatherUnload { beh with onUnload := hooks }
               (unload_model beh h r m).2.1 (unload_model beh h r m).2.2 rest).1),
          (gatherUnload { beh with onUnload := hooks }
            (unload_model beh h r m).2.1 (unload_model beh h r m).2.2 rest).2.1,
          (gatherUnload { beh with onUnload := hooks }
            (unload_model beh h r m).2.1 (unload_model beh h r m).2.2 rest).2.2) := rfl
    have hshape2 : gatherUnload beh h r (m :: rest) =
        ((match (unload_model beh h r m).1 with
           | .error e => (.error e : Except PErr Unit)
           | .ok _ => (gatherUnload beh
               (unload_model beh h r m).2.1 (unload_model beh h r m).2.2 rest).1),
          (gatherUnload beh
            (unload_model beh h r m).2.1 (unload_model beh h r m).2.2 rest).2.1,
          (gatherUnload beh
            (unload_model beh h r m).2.1 (unload_model beh h r m).2.2 rest).2.2) := rfl
    rw [hshape1, hshape2, ih]

theorem sunload_hooks (beh : Beh) (hooks : List (Nat → Except Unit Unit))
    (h : Heap) (r : SReg) :
    sunload { beh with onUnload := hooks } h r = sunload beh h r := by
  have h1 : sunload { beh with onUnload := hooks } h r =
      (match (gatherUnload { beh with onUnload := hooks } h
          (sget_models h r).2 (sget_models h r).1).1 with
        | .ok _ =>
          ((.ok () : Except PErr Unit),
            (gatherUnload { beh with onUnload := hooks } h
              (sget_models h r).2 (sget_models h r).1).2.1,
            { (gatherUnload { beh with onUnload := hooks } h
                (sget_models h r).2 (sget_models h r).1).2.2 with
                versions := [], dflt := none })
        | .error e =>
          (.error e,
            (gatherUnload { beh with onUnload := hooks } h
              (sget_models h r).2 (sget_models h r).1).2.1,
            (gatherUnload { beh with onUnload := hooks } h
              (sget_models h r).2 (sget_models h r).1).2.2)) := rfl
  rw [h1, gatherUnload_hooks beh hooks]
  exact rfl

/-- C1 counterexample: a registry whose single model's own `unload` coroutine
raises — `SingleModelRegistry.unload()` propagates the exception instead of
never failing (the outer `asyncio.gather` has no `return_exceptions`). -/
theorem c1_counterexample :
    (sunload behBadUnload [(0, ⟨"m", some "1", true⟩)] ⟨"m", [("1", 0)], some 0⟩).1 =
      .error .hookError := by
  rfl

/-- C1 (amended): on a well-formed registry, `unload()` always leaves the
versions map empty and the default pointer cleared (even when a Model's
unload raises, because each per-model step removes its own entry first); the
on-unload hook outcomes are swallowed and never influence the result; and the
call returns normally whenever every Model's own unload coroutine does — but
an exception from a Model's own unload step propagates to the caller. -/
theorem c1_unload_amended :
    ∀ (beh : Beh) (h : Heap) (r : SReg),
      wfReg h r →
      (sunload beh h r).2.2.versions = [] ∧
      (sunload beh h r).2.2.dflt = none ∧
      (∀ (hooks : List (Nat → Except Unit Unit)),
        sunload { beh with onUnload := hooks } h r = sunload beh h r) ∧
      ((∀ m ∈ (sget_models h r).1, ∃ b, beh.unloadFn m = .ok b) →
        (sunload beh h r).1 = .ok ()) := by
  intro beh h r hwf
  obtain ⟨hnd, hver, hkeys, hmem, hdef⟩ := snapshot_invariants h r hwf
  have hg := gather_clears beh (sget_models h r).1 h (sget_models h r).2 hnd hver hkeys
    hmem hdef
  have hshape : sunload beh h r =
      (match (gatherUnload beh h (sget_models h r).2 (sget_models h r).1).1 with
        | .ok _ =>
          ((.ok () : Except PErr Unit),
            (gatherUnload beh h (sget_models h r).2 (sget_models h r).1).2.1,
            { (gatherUnload beh h (sget_models h r).2 (sget_models h r).1).2.2 with
                versions := [], dflt := none })
        | .error e =>
          (.error e,
            (gatherUnload beh h (sget_models h r).2 (sget_models h r).1).2.1,
            (gatherUnload beh h (sget_models h r).2 (sget_models h r).1).2.2)) := rfl
  have hclear : (sunload beh h r).2.2.versions = [] ∧ (sunload beh h r).2.2.dflt = none := by
    cases hres : (gatherUnload beh h (sget_models h r).2 (sget_models h r).1).1 with
    | ok u =>
      have hv : sunload beh h r =
          ((.ok () : Except PErr Unit),
            (gatherUnload beh h (sget_models h r).2 (sget_models h r).1).2.1,
            { (gatherUnload beh h (sget_models h r).2 (sget_models h r).1).2.2 with
                versions := [], dflt := none }) := by
        rw [hshape, hres]
      rw [hv]
      exact ⟨rfl, rfl⟩
    | error e =>
      have hv : sunload beh h r =
          ((.error e : Except PErr Unit),
            (gatherUnload beh h (sget_models h r).2 (sget_models h r).1).2.1,
            (gatherUnload beh h (sget_models h r).2 (sget_models h r).1).2.2) := by
        rw [hshape, hres]
      rw [hv]
      exact ⟨hg.1.1, hg.1.2⟩
  have hok : (∀ m ∈ (sget_models h r).1, ∃ b, beh.unloadFn m = .ok b) →
      (sunload beh h r).1 = .ok () := by
    intro hall
    have hgok := hg.2 hall
    have hv : sunload beh h r =
        ((.ok () : Except PErr Unit),
          (gatherUnload beh h (sget_models h r).2 (sget_models h r).1).2.1,
          { (gatherUnload beh h (sget_models h r).2 (sget_models h r).1).2.2 with
              versions := [], dflt := none }) := by
      rw [hshape, hgok]
    rw [hv]
  exact ⟨hclear.1, hclear.2, fun hooks => sunload_hooks beh hooks h r, hok⟩

/-- C1 amended witness: a two-version well-formed registry with a version-less
default and failing unload coroutines still ends empty with the default
cleared; with succeeding coroutines the call returns normally. -/
theorem c1_unload_witness :
    (sunload behBadUnload [(0, ⟨"m", some "1", true⟩), (1, ⟨"m", some "2", true⟩)]
        ⟨"m", [("1", 0), ("2", 1)], some 1⟩).2.2.versions = [] ∧
    (sunload behBadUnload [(0, ⟨"m", some "1", true⟩), (1, ⟨"m", some "2", true⟩)]
        ⟨"m", [("1", 0), ("2", 1)], some 1⟩).2.2.dflt = none ∧
    (∀ (hooks : List (Nat → Except Unit Unit)),
      sunload { behBadUnload with onUnload := hooks }
          [(0, ⟨"m", some "1", true⟩), (1, ⟨"m", some "2", true⟩)]
          ⟨"m", [("1", 0), ("2", 1)], some 1⟩ =
        sunload behBadUnload [(0, ⟨"m", some "1", true⟩), (1, ⟨"m", some "2", true⟩)]
          ⟨"m", [("1", 0), ("2", 1)], some 1⟩) ∧
    ((∀ m ∈ (sget_models [(0, ⟨"m", some "1", true⟩), (1, ⟨"m", some "2", true⟩)]
          ⟨"m", [("1", 0), ("2", 1)], some 1⟩).1, ∃ b, behBadUnload.unloadFn m = .ok b) →
      (sunload behBadUnload [(0, ⟨"m", some "1", true⟩), (1, ⟨"m", some "2", true⟩)]
          ⟨"m", [("1", 0), ("2", 1)], some 1⟩).1 = .ok ()) :=
  c1_unload_amended behBadUnload [(0, ⟨"m", some "1", true⟩), (1, ⟨"m", some "2", true⟩)]
    ⟨"m", [("1", 0), ("2", 1)], some 1⟩
    (by
      refine ⟨by decide, by decide, ?_⟩
      intro d hd
      have hd1 : d = 1 := (Option.some.inj hd).symm
      subst hd1
      exact Or.inr ⟨"2", by decide, by decide, by decide⟩)

/- ------------------------------------------------------------------ -/
/- Claim C7: no orphan children.                                      -/
/- ------------------------------------------------------------------ -/

theorem mInv_iff (s : MRState) :
    mInv s = true ↔ ∀ p ∈ s.models, nonemptyB p.2 = true := by
  unfold mInv
  exact List.all_eq_true

theorem runReloadHooks_last (cbs : List ReloadCB) :
    ∀ (h : Heap) (old nw n1 : Nat) (h1 : Heap),
      runReloadHooks cbs h old nw = (true, n1, h1) →
      (n1 = nw ∧ h1 = h) ∨
      ∃ cb ∈ cbs, ∃ (h' : Heap) (w : Nat), applyReloadCB cb h' old w = .ok (n1, h1) := by
  induction cbs with
  | nil =>
    intro h old nw n1 h1 hrun
    simp only [runReloadHooks] at hrun
    obtain ⟨h2, h3⟩ := Prod.mk.injEq _ _ _ _ ▸ hrun
    exact Or.inl ⟨(Prod.mk.injEq _ _ _ _ ▸ h3).1.symm, ((Prod.mk.injEq _ _ _ _ ▸ h3).2).symm⟩
  | cons cb rest ih =>
    intro h old nw n1 h1 hrun
    simp only [runReloadHooks] at hrun
    cases hap : applyReloadCB cb h old nw with
    | error e =>
      rw [hap] at hrun
      simp at hrun
    | ok p =>
      obtain ⟨nw2, h2⟩ := p
      rw [hap] at hrun
      rcases ih h2 old nw2 n1 h1 hrun with ⟨he1, he2⟩ | ⟨cb', hcb', h', w, hap'⟩
      · subst he1
        subst he2
        exact Or.inr ⟨cb, List.mem_cons_self _ _, h, nw, hap⟩
      · exact Or.inr ⟨cb', List.mem_cons_of_mem _ hcb', h', w, hap'⟩

theorem load_model_ok_dflt (beh : Beh) (h : Heap) (r : SReg) (m : Nat)
    (hok : (load_model beh h r m).1.isOk = true) :
    (load_model beh h r m).2.2.dflt.isSome = true := by
  obtain ⟨ok1, m1, h1, hrun⟩ :
      ∃ ok1 m1 h1, runLoadHooks beh.onLoad h m = (ok1, m1, h1) :=
    ⟨_, _, _, rfl⟩
  cases ok1 with
  | false =>
    rw [load_model_hookfail beh h r m m1 h1 hrun] at hok
    cases hu : (unload_model beh h1 (register h r m) m1).1 with
    | ok u =>
      rw [hu] at hok
      simp [Except.isOk, Except.toBool] at hok
    | error e =>
      rw [hu] at hok
      simp [Except.isOk, Except.toBool] at hok
  | true =>
    cases hlf : beh.loadFn m1 with
    | error e =>
      obtain ⟨⟩ := e
      rw [load_model_loadfail beh h r m m1 h1 hrun hlf] at hok
      cases hu : (unload_model beh h1 (register h1 (register h r m) m1) m1).1 with
      | ok u =>
        rw [hu] at hok
        simp [Except.isOk, Except.toBool] at hok
      | error e2 =>
        rw [hu] at hok
        simp [Except.isOk, Except.toBool] at hok
    | ok b =>
      rw [load_model_ok beh h r m m1 h1 b hrun hlf]
      exact register_dflt_isSome h1 (register h r m) m1

theorem reload_model_ok_nonempty (beh : Beh) (h : Heap) (r : SReg) (old nw : Nat)
    (hr : ∀ cb ∈ beh.onReload, ∀ (h' : Heap) (o w m : Nat) (h2 : Heap),
      applyReloadCB cb h' o w = .ok (m, h2) → m ≠ o ∧ (hGetD h2 m).version ≠ some "")
    (hnw : nw ≠ old) (hnwver : (hGetD h nw).version ≠ some "")
    (hok : (reload_model beh h r old nw).1.isOk = true) :
    nonemptyB (reload_model beh h r old nw).2.2 = true := by
  obtain ⟨ok1, n1, h1, hrun⟩ :
      ∃ ok1 n1 h1, runReloadHooks beh.onReload h old nw = (ok1, n1, h1) :=
    ⟨_, _, _, rfl⟩
  cases ok1 with
  | false =>
    rw [reload_model_hookfail beh h r old nw n1 h1 hrun] at hok
    simp [Except.isOk, Except.toBool] at hok
  | true =>
    cases hlf : beh.loadFn n1 with
    | error e =>
      obtain ⟨⟩ := e
      rw [reload_model_loadfail beh h r old nw n1 h1 hrun hlf] at hok
      simp [Except.isOk, Except.toBool] at hok
    | ok b =>
      -- facts about the chain output
      have hfacts : n1 ≠ old ∧ (hGetD h1 n1).version ≠ some "" := by
        rcases runReloadHooks_last beh.onReload h old nw n1 h1 hrun with ⟨he1, he2⟩ | hcb
        · subst he1
          subst he2
          exact ⟨hnw, hnwver⟩
        · obtain ⟨cb, hcbm, h', w, hap⟩ := hcb
          exact hr cb hcbm h' old w n1 h1 hap
      have hshape : reload_model beh h r old nw =
          (let h2 := hSet h1 n1 { hGetD h1 n1 with ready := b }
           let r1 := register h2 r n1
           let dp := default_prop h2 r1
           let r3 := if dp.1 = some old then { dp.2 with dflt := none } else dp.2
           match beh.unloadFn old with
           | .error _ => (.error .hookError, h2, r3)
           | .ok ub => (.ok (), hSet h2 old { hGetD h2 old with ready := !ub }, r3)) := by
        unfold reload_model
        rw [hrun]
        simp only [hlf]
      have hverh2 : (hGetD (hSet h1 n1 { hGetD h1 n1 with ready := b }) n1).version =
          (hGetD h1 n1).version := version_hSet_ready h1 n1 n1 b
      have hr3 : nonemptyB (if (default_prop (hSet h1 n1 { hGetD h1 n1 with ready := b })
          (register (hSet h1 n1 { hGetD h1 n1 with ready := b }) r n1)).1 = some old then
            { (default_prop (hSet h1 n1 { hGetD h1 n1 with ready := b })
                (register (hSet h1 n1 { hGetD h1 n1 with ready := b }) r n1)).2 with
              dflt := none }
          else (default_prop (hSet h1 n1 { hGetD h1 n1 with ready := b })
            (register (hSet h1 n1 { hGetD h1 n1 with ready := b }) r n1)).2) = true := by
        by_cases htr : truthyS (hGetD (hSet h1 n1 { hGetD h1 n1 with ready := b }) n1).version = true
        · -- the new model is versioned: the version map stays non-empty
          have hv1 := register_versions_truthy (hSet h1 n1 { hGetD h1 n1 with ready := b })
            r n1 htr
          have hvne := dSet_ne_nil r.versions
            (((hGetD (hSet h1 n1 { hGetD h1 n1 with ready := b }) n1).version).getD "") n1
          unfold nonemptyB
          have hvv : (if (default_prop (hSet h1 n1 { hGetD h1 n1 with ready := b })
              (register (hSet h1 n1 { hGetD h1 n1 with ready := b }) r n1)).1 = some old then
                { (default_prop (hSet h1 n1 { hGetD h1 n1 with ready := b })
                    (register (hSet h1 n1 { hGetD h1 n1 with ready := b }) r n1)).2 with
                  dflt := none }
              else (default_prop (hSet h1 n1 { hGetD h1 n1 with ready := b })
                (register (hSet h1 n1 { hGetD h1 n1 with ready := b }) r n1)).2).versions =
              (register (hSet h1 n1 { hGetD h1 n1 with ready := b }) r n1).versions := by
            split
            · simpa using default_prop_versions _ _
            · exact default_prop_versions _ _
          rw [hvv, hv1]
          simp [List.isEmpty_iff, hvne]
        · -- the new model is version-less: it was adopted as default and is
          -- not the old model, so the pointer is not cleared
          have hvnone : (hGetD (hSet h1 n1 { hGetD h1 n1 with ready := b }) n1).version = none := by
            rw [hverh2]
            rcases hvq : (hGetD h1 n1).version with _ | k
            · rfl
            · exfalso
              have hkne : k ≠ "" := fun hke => hfacts.2 (by rw [hvq, hke])
              exact htr (by rw [hverh2, hvq]; exact truthyS_of hkne)
          have hr1d : (register (hSet h1 n1 { hGetD h1 n1 with ready := b }) r n1).dflt =
              some n1 := by
            unfold register
            rw [if_neg (by rw [hvnone]; simp [truthyS])]
            unfold refresh_default
            rcases hrd : r.dflt with _ | d
            · simp [hrd]
            · simp only [hrd]
              rw [if_pos hvnone]
          rw [default_prop_of_some _ _ n1 hr1d]
          rw [if_neg (by simp; intro he; exact hfacts.1 he)]
          unfold nonemptyB
          simp [hr1d]
      rw [hshape]
      cases hu : beh.unloadFn old with
      | error e => exact hr3
      | ok ub => exact hr3

theorem sload_shape (beh : Beh) (h : Heap) (r : SReg) (ms : ModelSettings) (newId : Nat)
    (hini : beh.initRaises = false) :
    sload beh h r ms newId =
      (match (find_model h r (get_version ms)).1 with
        | some old =>
          ((reload_model beh (hSet h newId ⟨ms.name, get_version ms, false⟩)
              (find_model h r (get_version ms)).2 old newId).1.map (fun _ => newId),
            (reload_model beh (hSet h newId ⟨ms.name, get_version ms, false⟩)
              (find_model h r (get_version ms)).2 old newId).2.1,
            (reload_model beh (hSet h newId ⟨ms.name, get_version ms, false⟩)
              (find_model h r (get_version ms)).2 old newId).2.2)
        | none =>
          ((load_model beh (hSet h newId ⟨ms.name, get_version ms, false⟩)
              (find_model h r (get_version ms)).2 newId).1.map (fun _ => newId),
            (load_model beh (hSet h newId ⟨ms.name, get_version ms, false⟩)
              (find_model h r (get_version ms)).2 newId).2.1,
            (load_model beh (hSet h newId ⟨ms.name, get_version ms, false⟩)
              (find_model h r (get_version ms)).2 newId).2.2)) := by
  unfold sload
  rw [hini]
  rcases hfm : (find_model h r (get_version ms)).1 with _ | old
  · simp only [Bool.false_eq_true, if_false]
    have hx : find_model h r (get_version ms) = (none, (find_model h r (get_version ms)).2) := by
      rw [← hfm]
    rw [hx]
  · simp only [Bool.false_eq_true, if_false]
    have hx : find_model h r (get_version ms) =
        (some old, (find_model h r (get_version ms)).2) := by
      rw [← hfm]
    rw [hx]

theorem sload_ok_nonempty (beh : Beh) (h : Heap) (r : SReg) (ms : ModelSettings)
    (newId : Nat)
    (hr : ∀ cb ∈ beh.onReload, ∀ (h' : Heap) (o w m : Nat) (h2 : Heap),
      applyReloadCB cb h' o w = .ok (m, h2) → m ≠ o ∧ (hGetD h2 m).version ≠ some "")
    (hsv : ∀ sv, get_version ms = some sv → sv ≠ "")
    (hprev : (find_model h r (get_version ms)).1 ≠ some newId)
    (hok : (sload beh h r ms newId).1.isOk = true) :
    nonemptyB (sload beh h r ms newId).2.2 = true := by
  cases hini : beh.initRaises with
  | true =>
    have hsl : sload beh h r ms newId = (.error .hookError, h, (find_model h r (get_version ms)).2) := by
      unfold sload
      rw [hini]
      exact rfl
    rw [hsl] at hok
    simp [Except.isOk, Except.toBool] at hok
  | false =>
    rw [sload_shape beh h r ms newId hini] at hok ⊢
    rcases hfm : (find_model h r (get_version ms)).1 with _ | old
    · rw [hfm] at hok
      try rw [hfm]
      simp only
      have hok' : (load_model beh (hSet h newId ⟨ms.name, get_version ms, false⟩)
          (find_model h r (get_version ms)).2 newId).1.isOk = true := by
        simp only at hok
        cases hq : (load_model beh (hSet h newId ⟨ms.name, get_version ms, false⟩)
            (find_model h r (get_version ms)).2 newId).1 with
        | ok u => rfl
        | error e =>
          rw [hq] at hok
          simp [Except.map, Except.isOk, Except.toBool] at hok
      have := load_model_ok_dflt beh (hSet h newId ⟨ms.name, get_version ms, false⟩)
        (find_model h r (get_version ms)).2 newId hok'
      unfold nonemptyB
      rw [this]
      simp
    · rw [hfm] at hok
      try rw [hfm]
      simp only
      have hok' : (reload_model beh (hSet h newId ⟨ms.name, get_version ms, false⟩)
          (find_model h r (get_version ms)).2 old newId).1.isOk = true := by
        simp only at hok
        cases hq : (reload_model beh (hSet h newId ⟨ms.name, get_version ms, false⟩)
            (find_model h r (get_version ms)).2 old newId).1 with
        | ok u => rfl
        | error e =>
          rw [hq] at hok
          simp [Except.map, Except.isOk, Except.toBool] at hok
      have hnwold : newId ≠ old := by
        intro he
        rw [he] at hprev
        exact hprev hfm
      have hnwver : (hGetD (hSet h newId ⟨ms.name, get_version ms, false⟩) newId).version ≠
          some "" := by
        rw [hGetD_hSet_self]
        simp only
        intro he
        exact hsv "" he rfl
      exact reload_model_ok_nonempty beh (hSet h newId ⟨ms.name, get_version ms, false⟩)
        (find_model h r (get_version ms)).2 old newId hr hnwold hnwver hok'

/-- C7 counterexample: a failed first load on a fresh name raises, but the
newly created empty child registry is left behind in the models map — an
orphan empty child, refuting "including failed load". -/
theorem c7_counterexample :
    (mload behBadLoad ⟨[], []⟩ ⟨"m", some ⟨some "1"⟩⟩ 0).1 = .error .hookError ∧
    dGet? (mload behBadLoad ⟨[], []⟩ ⟨"m", some ⟨some "1"⟩⟩ 0).2.models "m" =
      some ⟨"m", [], none⟩ ∧
    mInv (mload behBadLoad ⟨[], []⟩ ⟨"m", some ⟨some "1"⟩⟩ 0).2 = false ∧
    (empty_check (mload behBadLoad ⟨[], []⟩ ⟨"m", some ⟨some "1"⟩⟩ 0).2.heap
        (⟨"m", [], none⟩ : SReg)).1 = true := by
  exact ⟨rfl, rfl, rfl, rfl⟩

/-- C7 (amended): the no-orphans invariant is preserved by every operation
that completes without error — a successful load leaves its child non-empty,
unload removes the child, and unloadVersion removes the child exactly when it
became empty — under benign hook assumptions (reload callbacks never return
the old model itself or an empty-string version, and version strings in the
settings are non-empty); a FAILED load (or a failed unload/unloadVersion) can
leave an empty child behind, as the counterexample shows. -/
theorem c7_no_orphans_amended :
    ∀ (beh : Beh) (s : MRState),
      mInv s = true →
      (∀ cb ∈ beh.onReload, ∀ (h' : Heap) (o w m : Nat) (h2 : Heap),
        applyReloadCB cb h' o w = .ok (m, h2) → m ≠ o ∧ (hGetD h2 m).version ≠ some "") →
      (∀ (ms : ModelSettings) (newId : Nat),
        (∀ sv, get_version ms = some sv → sv ≠ "") →
        (∀ c, dGet? s.models ms.name = some c →
          (find_model s.heap c (get_version ms)).1 ≠ some newId) →
        (mload beh s ms newId).1.isOk = true → mInv (mload beh s ms newId).2 = true) ∧
      (∀ name, (munload beh s name).1.isOk = true → mInv (munload beh s name).2 = true) ∧
      (∀ name version, (munload_version beh s name version).1.isOk = true →
        mInv (munload_version beh s name version).2 = true) := by
  intro beh s hinv hr
  have hinv' := (mInv_iff s).mp hinv
  refine ⟨?_, ?_, ?_⟩
  · intro ms newId hsv hprev hok
    rcases hc : dGet? s.models ms.name with _ | c
    · -- first sight of the name: a fresh empty child is created
      have hfresh : (find_model s.heap (⟨ms.name, [], none⟩ : SReg) (get_version ms)).1 =
          none := by
        unfold find_model
        by_cases ht : truthyS (get_version ms) = true
        · simp [ht, dGet?]
        · have ht' : truthyS (get_version ms) = false := by
            cases hq : truthyS (get_version ms)
            · rfl
            · exact absurd hq ht
          rw [if_neg (by simp [ht'])]
          unfold default_prop find_default
          simp [dValues]
      have hm : mload beh s ms newId =
          ((sload beh s.heap ⟨ms.name, [], none⟩ ms newId).1,
            ⟨(sload beh s.heap ⟨ms.name, [], none⟩ ms newId).2.1,
              dSet (dSet s.models ms.name ⟨ms.name, [], none⟩) ms.name
                (sload beh s.heap ⟨ms.name, [], none⟩ ms newId).2.2⟩) := by
        unfold mload
        simp only [hc]
        rw [dGet?_dSet_self]
      rw [hm] at hok ⊢
      have hne := sload_ok_nonempty beh s.heap ⟨ms.name, [], none⟩ ms newId hr hsv
        (by rw [hfresh]; simp) hok
      rw [mInv_iff]
      intro p hp
      simp only at hp
      rw [dSet_dSet_absent s.models ms.name _ _ hc] at hp
      rcases mem_dSet hp with he | he
      · rw [he]
        exact hne
      · exact hinv' p he
    · -- existing child
      have hm : mload beh s ms newId =
          ((sload beh s.heap c ms newId).1,
            ⟨(sload beh s.heap c ms newId).2.1,
              dSet s.models ms.name (sload beh s.heap c ms newId).2.2⟩) := by
        unfold mload
        simp only [hc]
      rw [hm] at hok ⊢
      have hne := sload_ok_nonempty beh s.heap c ms newId hr hsv (hprev c hc) hok
      rw [mInv_iff]
      intro p hp
      simp only at hp
      rcases mem_dSet hp with he | he
      · rw [he]
        exact hne
      · exact hinv' p he
  · intro name hok
    rcases hc : dGet? s.models name with _ | c
    · have hm : munload beh s name = (.error (.modelNotFound name none), s) := by
        unfold munload
        rw [hc]
      rw [hm] at hok
      simp [Except.isOk, Except.toBool] at hok
    · obtain ⟨res1, h2, c2, hs⟩ : ∃ res1 h2 c2, sunload beh s.heap c = (res1, h2, c2) :=
        ⟨_, _, _, rfl⟩
      cases res1 with
      | error e =>
        have hm : munload beh s name = (.error e, ⟨h2, dSet s.models name c2⟩) := by
          unfold munload
          simp only [hc, hs]
        rw [hm] at hok
        simp [Except.isOk, Except.toBool] at hok
      | ok u =>
        have hm : munload beh s name = (.ok (), ⟨h2, dDel s.models name⟩) := by
          unfold munload
          simp only [hc, hs]
        rw [hm]
        rw [mInv_iff]
        intro p hp
        exact hinv' p (mem_dDel hp)
  · intro name version hok
    rcases hc : dGet? s.models name with _ | c
    · have hm : munload_version beh s name version =
          (.error (.modelNotFound name version), s) := by
        unfold munload_version
        rw [hc]
      rw [hm] at hok
      simp [Except.isOk, Except.toBool] at hok
    · obtain ⟨res1, h2, c2, hs⟩ : ∃ res1 h2 c2,
          sunload_version beh s.heap c version = (res1, h2, c2) := ⟨_, _, _, rfl⟩
      cases res1 with
      | error e =>
        have hm : munload_version beh s name version =
            (.error e, ⟨h2, dSet s.models name c2⟩) := by
          unfold munload_version
          simp only [hc, hs]
        rw [hm] at hok
        simp [Except.isOk, Except.toBool] at hok
      | ok u =>
        obtain ⟨b, c3, he⟩ : ∃ b c3, empty_check h2 c2 = (b, c3) := ⟨_, _, rfl⟩
        cases b with
        | true =>
          have hm : munload_version beh s name version =
              (.ok (), ⟨h2, dDel (dSet s.models name c3) name⟩) := by
            unfold munload_version
            simp only [hc, hs, he]
            simp
          rw [hm]
          rw [mInv_iff]
          intro p hp
          exact hinv' p (mem_dDel_dSet hp)
        | false =>
          have hm : munload_version beh s name version =
              (.ok (), ⟨h2, dSet s.models name c3⟩) := by
            unfold munload_version
            simp only [hc, hs, he]
            simp
          rw [hm]
          rw [mInv_iff]
          intro p hp
          rcases mem_dSet hp with heq | heq
          · rw [heq]
            have hx := empty_check_false_nonempty h2 c2 (by rw [he])
            rw [he] at hx
            exact hx
          · exact hinv' p heq

/-- C7 amended witness: on a concrete one-child state, unloading the name
removes the child and re-establishes the invariant; the hypotheses are
satisfiable. -/
theorem c7_no_orphans_witness :
    mInv (munload behOk
        ⟨[(0, ⟨"m", some "1", true⟩)], [("m", ⟨"m", [("1", 0)], some 0⟩)]⟩ "m").2 = true :=
  (c7_no_orphans_amended behOk
      ⟨[(0, ⟨"m", some "1", true⟩)], [("m", ⟨"m", [("1", 0)], some 0⟩)]⟩
      (by decide) (by intro cb hcb; simp [behOk] at hcb)).2.1 "m" rfl

end MLServer
